import Mathlib

/-!
# ecuda: device-bound views and the page-locked host allocator

A shallow embedding of `include/ecuda/models.hpp` and
`include/ecuda/allocators.hpp`.

* Raw addresses are natural numbers counted in elements (address `a + 1` is the
  element right after address `a`); pointer arithmetic on raw addresses is exact.
* `size_type` arithmetic written in the source (`rows*columns`,
  `row*number_columns()+column`, `n*sizeof(T)`) is taken modulo `2^w`, where `w`
  is the width of `std::size_t`.
* Integer division by zero is undefined in the source; the embedding returns
  `none` there.
-/

namespace ecuda

/-! ## Address strategies (memory.hpp) -/

/-- Modelled from the spec: the address strategies of `memory.hpp`, which is not
part of the sources at hand. A plain address wraps a raw pointer; a striding
address wraps a base address (the template parameter `PointerType` of
`striding_ptr<T,PointerType>`) plus a fixed stride, the element count between two
logical elements. -/
inductive Pointer where
  | plain (addr : Nat) : Pointer
  | striding (base : Pointer) (stride : Nat) : Pointer
  deriving DecidableEq

namespace pointer_traits

/-- Modelled from the spec: `pointer_traits<P>::undress` of `memory.hpp`, "strip
to a raw addressable pointer". A striding address strips to the raw address of
its current base. -/
def undress : Pointer → Nat
  | Pointer.plain a => a
  | Pointer.striding b _ => undress b

/-- Modelled from the spec: `pointer_traits<P>::increment` of `memory.hpp`,
"produce address advanced by n elements". Plain: pointer + n. Striding: the base
advanced by `n * stride`. -/
def increment : Pointer → Nat → Pointer
  | Pointer.plain a, n => Pointer.plain (a + n)
  | Pointer.striding b s, n => Pointer.striding (increment b (n * s)) s

/-- Modelled from the spec: `pointer_traits<P>::cast_to_modifiable` of
`memory.hpp`, "produce the mutable variant of a read-only address". Constness is
not part of the embedding, so the address value is returned as it is. -/
def cast_to_modifiable (p : Pointer) : Pointer := p

end pointer_traits

open pointer_traits

/-- The number of raw elements between two consecutive logical elements of an
address strategy (1 for a plain address, the product of the strides otherwise).
A measure used by the proofs; it is not a function of the source. -/
def raw_step : Pointer → Nat
  | Pointer.plain _ => 1
  | Pointer.striding b s => s * raw_step b

/-! ## Memory -/

/-- The addressed storage: one value per raw address. -/
abbrev Memory (α : Type) := Nat → α

/-- Store `v` at raw address `a`. -/
def Memory.write {α : Type} (mem : Memory α) (a : Nat) (v : α) : Memory α :=
  fun x => if x = a then v else mem x

/-! ## Iterators (iterator.hpp) -/

/-- Modelled from the spec: `device_iterator` of `iterator.hpp`, which is not part
of the sources at hand: the generic device iterator built over any address
strategy. -/
structure device_iterator where
  ptr : Pointer
  deriving DecidableEq

namespace device_iterator

/-- Modelled from the spec: `operator*`, dereference of the current address;
the raw address that is read or written. -/
def address (it : device_iterator) : Nat := undress it.ptr

/-- Modelled from the spec: `operator++`, the address advanced by one logical
element through the address strategy. -/
def next (it : device_iterator) : device_iterator := ⟨increment it.ptr 1⟩

/-- Modelled from the spec: `operator!=`; "iterator equality is defined purely on
the underlying address value (after stripping to raw form)". -/
def ne (a b : device_iterator) : Bool := undress a.ptr != undress b.ptr

/-- The iterator advanced `n` times with `operator++`. -/
def advance (it : device_iterator) : Nat → device_iterator
  | 0 => it
  | n + 1 => advance it.next n

end device_iterator

/-- The loop `for( it = first; it != last; ++it ) visit(*it)`: the raw addresses
visited, in order. `none` when the fuel runs out before `it` reaches `last`. -/
def traverse : Nat → device_iterator → device_iterator → Option (List Nat)
  | fuel, it, last =>
    if it.ne last then
      match fuel with
      | 0 => none
      | fuel + 1 => (traverse fuel it.next last).map (fun rest => it.address :: rest)
    else some []

/-! ## `__device_sequence` -/

/-- The class `__device_sequence<T,PointerType>`: `pointer ptr; size_type length;`. -/
structure __device_sequence where
  ptr : Pointer
  length : Nat
  deriving DecidableEq

namespace __device_sequence

/-- Source: `__device_sequence( pointer ptr = pointer(), size_type length = 0 )`. -/
def new (ptr : Pointer) (length : Nat) : __device_sequence :=
  ⟨ptr, length⟩

/-- The default arguments of the constructor: `pointer()` (the null address) and
length 0. -/
def default : __device_sequence := new (Pointer.plain 0) 0

/-- Source: `size() const { return length; }`. -/
def size (s : __device_sequence) : Nat := s.length

/-- Source: `operator[]( x ) { return *(pointer_traits<pointer>().undress(ptr)+x); }`:
the raw address whose element is returned. -/
def operator_index (s : __device_sequence) (x : Nat) : Nat := undress s.ptr + x

/-- Source: `begin() { return iterator( pointer_traits<pointer>().cast_to_modifiable(ptr) ); }`. -/
def begin (s : __device_sequence) : device_iterator := ⟨cast_to_modifiable s.ptr⟩

/-- Source: `end() { return iterator( pointer_traits<pointer>().increment(ptr,size()) ); }`. -/
def end_ (s : __device_sequence) : device_iterator := ⟨increment s.ptr s.size⟩

/-- The raw addresses visited by a traversal from `begin()` to `end()`. -/
def addresses (fuel : Nat) (s : __device_sequence) : Option (List Nat) :=
  traverse fuel s.begin s.end_

/-- The elements observed through the view: the values read by a traversal from
`begin()` to `end()`. -/
def elements {α : Type} (fuel : Nat) (mem : Memory α) (s : __device_sequence) :
    Option (List α) :=
  (addresses fuel s).map (fun as => as.map mem)

end __device_sequence

/-- Modelled from the spec: `ecuda::swap( a, b )`, the element exchange utility
that the core uses but does not define: the values stored at the two raw
addresses are exchanged (`tmp = *x; *x = *y; *y = tmp`). -/
def swap {α : Type} (mem : Memory α) (x y : Nat) : Memory α :=
  (mem.write x (mem y)).write y (mem x)

namespace __device_sequence

/-- The loop of `swap` under `__CUDA_ARCH__`:
`for( ; iter1 != end(); ++iter1, ++iter2 ) ecuda::swap( *iter1, *iter2 );`.
`none` when the fuel runs out before `iter1` reaches `end()`. -/
def swap_loop {α : Type} :
    Nat → Memory α → device_iterator → device_iterator → device_iterator → Option (Memory α)
  | fuel, mem, iter1, iter2, last =>
    if iter1.ne last then
      match fuel with
      | 0 => none
      | fuel + 1 =>
        swap_loop fuel (ecuda.swap mem iter1.address iter2.address) iter1.next iter2.next last
    else some mem

/-- The body of `swap( __device_sequence& other )` compiled for the accelerator
(`#ifdef __CUDA_ARCH__`): `iter1 = begin(); iter2 = other.begin();` and the
element-wise loop. Only the storage changes; both views keep their fields. -/
def swap_device {α : Type} (fuel : Nat) (mem : Memory α) (self other : __device_sequence) :
    Option (Memory α) :=
  swap_loop fuel mem self.begin other.begin self.end_

/-- The body of `swap( __device_sequence& other )` compiled for the host (`#else`):
`std::swap( ptr, other.ptr ); std::swap( length, other.length );`. The result is
the pair (this view, other view) after the call; the storage is not touched. -/
def swap_host (self other : __device_sequence) : __device_sequence × __device_sequence :=
  (⟨other.ptr, other.length⟩, ⟨self.ptr, self.length⟩)

end __device_sequence

/-! ## `__device_matrix` -/

/-- The class `__device_matrix<T,PointerType> : public __device_sequence<T,PointerType>`
with its one field of its own, `size_type rows;`. -/
structure __device_matrix extends __device_sequence where
  rows : Nat
  deriving DecidableEq

namespace __device_matrix

/-- Source: `__device_matrix( pointer ptr = pointer(), size_type rows = 0, size_type columns = 0 )
: base_type(ptr,rows*columns), rows(rows) {}`. -/
def new (w : Nat) (ptr : Pointer) (rows columns : Nat) : __device_matrix :=
  ⟨__device_sequence.new ptr ((rows * columns) % 2 ^ w), rows⟩

/-- Source: `number_rows() const { return rows; }`. -/
def number_rows (m : __device_matrix) : Nat := m.rows

/-- Source: `number_columns() const { return base_type::size()/rows; }`; undefined
(`none`) when `rows` is zero. -/
def number_columns (m : __device_matrix) : Option Nat :=
  if m.rows = 0 then none else some (m.to__device_sequence.size / m.rows)

/-- Source: `get_row( row ) { return row_type( pointer_traits<pointer>().increment(
base_type::get_pointer(),row*number_columns()), number_columns() ); }`. -/
def get_row (w : Nat) (m : __device_matrix) (row : Nat) : Option __device_sequence :=
  (number_columns m).map
    (fun columns => __device_sequence.new (increment m.ptr ((row * columns) % 2 ^ w)) columns)

/-- Source: `get_column( column ) { return column_type( striding_ptr<...>(
pointer_traits<pointer>().increment( base_type::get_pointer(), column ),
number_columns() ), number_rows() ); }`. -/
def get_column (m : __device_matrix) (column : Nat) : Option __device_sequence :=
  (number_columns m).map
    (fun columns =>
      __device_sequence.new (Pointer.striding (increment m.ptr column) columns) (number_rows m))

/-- Source: `operator[]( row ) { return get_row(row); }`. -/
def operator_index (w : Nat) (m : __device_matrix) (row : Nat) : Option __device_sequence :=
  get_row w m row

end __device_matrix

/-! ## `__device_contiguous_sequence` -/

/-- The class `__device_contiguous_sequence<T,PointerType> : public
__device_sequence<T,PointerType>`; it adds no field. -/
structure __device_contiguous_sequence extends __device_sequence where
  deriving DecidableEq

namespace __device_contiguous_sequence

/-- Source: `__device_contiguous_sequence( pointer ptr = pointer(), size_type length = 0 )
: base_type(ptr,length) {}`. -/
def new (ptr : Pointer) (length : Nat) : __device_contiguous_sequence :=
  ⟨__device_sequence.new ptr length⟩

end __device_contiguous_sequence

/-! ## `__device_contiguous_row_matrix` -/

/-- The class `__device_contiguous_row_matrix<T,PointerType> : public
__device_matrix<T,PointerType>`; it adds no field. -/
structure __device_contiguous_row_matrix extends __device_matrix where
  deriving DecidableEq

namespace __device_contiguous_row_matrix

/-- Source: `__device_contiguous_row_matrix( pointer ptr = pointer(), size_type rows = 0,
size_type columns = 0 ) : base_type(ptr,rows,columns) {}`. -/
def new (w : Nat) (ptr : Pointer) (rows columns : Nat) : __device_contiguous_row_matrix :=
  ⟨__device_matrix.new w ptr rows columns⟩

/-- Source: `get_row( row )`: `mp = pointer_traits<pointer>().increment(
base_type::get_pointer(), row*base_type::number_columns() ); return row_type(
pointer_traits<...>().undress(mp), base_type::number_columns() );` where `row_type`
is a `__device_contiguous_sequence` over a raw pointer. -/
def get_row (w : Nat) (m : __device_contiguous_row_matrix) (row : Nat) :
    Option __device_contiguous_sequence :=
  (m.to__device_matrix.number_columns).map
    (fun columns =>
      __device_contiguous_sequence.new
        (Pointer.plain (undress (increment m.ptr ((row * columns) % 2 ^ w)))) columns)

/-- Source: `operator[]( row ) { return get_row(row); }`. -/
def operator_index (w : Nat) (m : __device_contiguous_row_matrix) (row : Nat) :
    Option __device_contiguous_sequence :=
  get_row w m row

/-- Source: `at( row, column )`: `mp = pointer_traits<pointer>().increment(
base_type::get_pointer(), row*base_type::number_columns()+column ); return
*pointer_traits<...>::undress( mp );`: the raw address that is dereferenced. -/
def at_ (w : Nat) (m : __device_contiguous_row_matrix) (row column : Nat) : Option Nat :=
  (m.to__device_matrix.number_columns).map
    (fun columns => undress (increment m.ptr (((row * columns) % 2 ^ w + column) % 2 ^ w)))

end __device_contiguous_row_matrix

/-! ## `HostAllocator` (allocators.hpp) -/

namespace HostAllocator

/-- The exception thrown by `allocate`. -/
inductive Exception where
  | bad_alloc : Exception
  deriving DecidableEq

/-- The success code `cudaSuccess` of the platform's `cudaError_t`. -/
def cudaSuccess : Nat := 0

/-- The null address `NULL`. -/
def NULL : Nat := 0

/-- Source: `allocate( n, hint )`:
`pointer ptr = NULL; result = cudaMallocHost( &ptr, n*sizeof(T) );
if( result != cudaSuccess ) throw std::bad_alloc(); return ptr;`.
The platform call is a parameter: `cudaMallocHost slot bytes` returns the result
code and the value the pointer slot holds after the call. `sizeof_T` is
`sizeof(T)`. -/
def allocate (w sizeof_T : Nat) (cudaMallocHost : Nat → Nat → Nat × Nat) (n : Nat) :
    Except Exception Nat :=
  let ptr := NULL
  let call := cudaMallocHost ptr ((n * sizeof_T) % 2 ^ w)
  if call.1 ≠ cudaSuccess then Except.error Exception.bad_alloc else Except.ok call.2

end HostAllocator

/-! ## Reverse iteration (iterator.hpp) -/

namespace pointer_traits

/-- Modelled from the spec: the address moved back by `n` elements, the inverse of
`increment` that the decrement and offset subtraction of the iterators of
`iterator.hpp` rest on. Plain: pointer - n. Striding: the base moved back by
`n * stride`. Inside the addressed storage the subtraction never goes below the
first address. -/
def decrement : Pointer → Nat → Pointer
  | Pointer.plain a, n => Pointer.plain (a - n)
  | Pointer.striding b s, n => Pointer.striding (decrement b (n * s)) s

end pointer_traits

namespace device_iterator

/-- Modelled from the spec: `operator-( n )`, the iterator moved back by `n`
logical elements (`end()-1` is `end().minus 1`). -/
def minus (it : device_iterator) (n : Nat) : device_iterator := ⟨decrement it.ptr n⟩

/-- Modelled from the spec: `operator--`, the iterator moved back by one logical
element. -/
def prev (it : device_iterator) : device_iterator := ⟨decrement it.ptr 1⟩

end device_iterator

/-- Modelled from the spec: `reverse_device_iterator` of `iterator.hpp`, which is
not part of the sources at hand: it wraps a base iterator, inverts increment and
decrement, and offsets the dereference by one position. -/
structure reverse_device_iterator where
  base : device_iterator
  deriving DecidableEq

namespace reverse_device_iterator

/-- Modelled from the spec: `operator*`, the dereference offset by one position:
the raw address of the element right before the base iterator. -/
def address (it : reverse_device_iterator) : Nat := it.base.prev.address

/-- Modelled from the spec: `operator++`, the decrement of the base iterator. -/
def next (it : reverse_device_iterator) : reverse_device_iterator := ⟨it.base.prev⟩

/-- Modelled from the spec: `operator!=`, the inequality of the base iterators. -/
def ne (a b : reverse_device_iterator) : Bool := a.base.ne b.base

end reverse_device_iterator

/-- The loop `for( it = first; it != last; ++it ) visit(*it)` over reverse
iterators: the raw addresses visited, in order. `none` when the fuel runs out
before `it` reaches `last`. -/
def traverse_reverse :
    Nat → reverse_device_iterator → reverse_device_iterator → Option (List Nat)
  | fuel, it, last =>
    if it.ne last then
      match fuel with
      | 0 => none
      | fuel + 1 => (traverse_reverse fuel it.next last).map (fun rest => it.address :: rest)
    else some []

namespace __device_sequence

/-- Source: `rbegin() { return reverse_iterator(end()); }`. -/
def rbegin (s : __device_sequence) : reverse_device_iterator := ⟨s.end_⟩

/-- Source: `rend() { return reverse_iterator(begin()); }`. -/
def rend (s : __device_sequence) : reverse_device_iterator := ⟨s.begin⟩

/-- The raw addresses visited by a traversal from `rbegin()` to `rend()`. -/
def reverse_addresses (fuel : Nat) (s : __device_sequence) : Option (List Nat) :=
  traverse_reverse fuel s.rbegin s.rend

end __device_sequence

/-! ## Contiguous iteration (iterator.hpp) -/

/-- Modelled from the spec: `device_contiguous_iterator` of `iterator.hpp`, which
is not part of the sources at hand: the iterator "built directly over a raw
address, skipping the address-strategy indirection". -/
structure device_contiguous_iterator where
  ptr : Nat
  deriving DecidableEq

namespace device_contiguous_iterator

/-- Modelled from the spec: `operator*`; the raw address that is read or
written. -/
def address (it : device_contiguous_iterator) : Nat := it.ptr

/-- Modelled from the spec: `operator++`, the raw address of the next element. -/
def next (it : device_contiguous_iterator) : device_contiguous_iterator := ⟨it.ptr + 1⟩

/-- Modelled from the spec: `operator!=`, inequality of the raw addresses. -/
def ne (a b : device_contiguous_iterator) : Bool := a.ptr != b.ptr

end device_contiguous_iterator

/-- The loop `for( it = first; it != last; ++it ) visit(*it)` over contiguous
iterators: the raw addresses visited, in order. `none` when the fuel runs out
before `it` reaches `last`. -/
def traverse_contiguous :
    Nat → device_contiguous_iterator → device_contiguous_iterator → Option (List Nat)
  | fuel, it, last =>
    if it.ne last then
      match fuel with
      | 0 => none
      | fuel + 1 =>
        (traverse_contiguous fuel it.next last).map (fun rest => it.address :: rest)
    else some []

namespace __device_contiguous_sequence

/-- Source: `begin() { return iterator( pointer_traits<pointer>().undress(
base_type::get_pointer()) ); }`. -/
def begin (s : __device_contiguous_sequence) : device_contiguous_iterator :=
  ⟨undress s.ptr⟩

/-- Source: `end() { return iterator( pointer_traits<pointer>().undress(
base_type::get_pointer()) + base_type::size() ); }`. -/
def end_ (s : __device_contiguous_sequence) : device_contiguous_iterator :=
  ⟨undress s.ptr + s.to__device_sequence.size⟩

/-- The raw addresses visited by a traversal from the contiguous `begin()` to the
contiguous `end()`. -/
def addresses (fuel : Nat) (s : __device_contiguous_sequence) : Option (List Nat) :=
  traverse_contiguous fuel s.begin s.end_

end __device_contiguous_sequence

/-! ## `__device_fixed_sequence` -/

/-- The class `__device_fixed_sequence<T,N,PointerType>`: `pointer ptr;`, the
length `N` being a template parameter. -/
structure __device_fixed_sequence (N : Nat) where
  ptr : Pointer
  deriving DecidableEq

namespace __device_fixed_sequence

/-- Source: `__device_fixed_sequence( pointer ptr = pointer() ) : ptr(ptr) {}`. -/
def new (N : Nat) (ptr : Pointer) : __device_fixed_sequence N := ⟨ptr⟩

/-- Source: `size() const { return N; }`. -/
def size {N : Nat} (_s : __device_fixed_sequence N) : Nat := N

/-- Source: `begin() { return iterator( pointer_traits<pointer>().undress(ptr) ); }`. -/
def begin {N : Nat} (s : __device_fixed_sequence N) : device_contiguous_iterator :=
  ⟨undress s.ptr⟩

/-- Source: `end() { return iterator( pointer_traits<pointer>().undress(ptr)+N ); }`. -/
def end_ {N : Nat} (s : __device_fixed_sequence N) : device_contiguous_iterator :=
  ⟨undress s.ptr + N⟩

/-- The elements observed through the view: the values read by a traversal from
`begin()` to `end()`. -/
def elements {α : Type} {N : Nat} (fuel : Nat) (mem : Memory α)
    (s : __device_fixed_sequence N) : Option (List α) :=
  (traverse_contiguous fuel s.begin s.end_).map (fun as => as.map mem)

/-- The loop of `swap` under `__CUDA_ARCH__`:
`for( ; iter1 != end(); ++iter1, ++iter2 ) ecuda::swap( *iter1, *iter2 );`.
`none` when the fuel runs out before `iter1` reaches `end()`. -/
def swap_loop {α : Type} :
    Nat → Memory α → device_contiguous_iterator → device_contiguous_iterator →
      device_contiguous_iterator → Option (Memory α)
  | fuel, mem, iter1, iter2, last =>
    if iter1.ne last then
      match fuel with
      | 0 => none
      | fuel + 1 =>
        swap_loop fuel (ecuda.swap mem iter1.address iter2.address) iter1.next iter2.next last
    else some mem

/-- The body of `swap( __device_fixed_sequence& other )` compiled for the
accelerator (`#ifdef __CUDA_ARCH__`): `iter1 = begin(); iter2 = other.begin();`
and the element-wise loop. Only the storage changes; both views keep `ptr`. -/
def swap_device {α : Type} {N : Nat} (fuel : Nat) (mem : Memory α)
    (self other : __device_fixed_sequence N) : Option (Memory α) :=
  swap_loop fuel mem self.begin other.begin self.end_

/-- The body of `swap( __device_fixed_sequence& other )` compiled for the host
(`#else`): `std::swap( ptr, other.ptr );`. The result is the pair (this view,
other view) after the call; the storage is not touched. -/
def swap_host {N : Nat} (self other : __device_fixed_sequence N) :
    __device_fixed_sequence N × __device_fixed_sequence N :=
  (⟨other.ptr⟩, ⟨self.ptr⟩)

end __device_fixed_sequence

/-! ## `swap` on matrix views -/

namespace __device_matrix

/-- The call `a.swap(b)` on two matrix views compiled for the host.
`__device_matrix` declares no `swap` of its own, so the call is the inherited
`__device_sequence::swap( __device_sequence& other )` acting on the base
sub-objects: `ptr` and `length` are exchanged, the field `rows` of either view is
not touched. -/
def swap_host (self other : __device_matrix) : __device_matrix × __device_matrix :=
  (⟨(__device_sequence.swap_host self.to__device_sequence other.to__device_sequence).1,
      self.rows⟩,
    ⟨(__device_sequence.swap_host self.to__device_sequence other.to__device_sequence).2,
      other.rows⟩)

/-- The call `a.swap(b)` on two matrix views compiled for the accelerator: the
inherited element-wise loop over the base sub-objects. -/
def swap_device {α : Type} (fuel : Nat) (mem : Memory α) (self other : __device_matrix) :
    Option (Memory α) :=
  __device_sequence.swap_device fuel mem self.to__device_sequence other.to__device_sequence

end __device_matrix

/-! ## `HostAllocator`: release and capacity -/

namespace HostAllocator

/-- Source: `deallocate( ptr, n ) { if( ptr ) cudaFreeHost( reinterpret_cast<void*>(ptr) ); }`.
The platform is the log of the addresses passed to `cudaFreeHost` so far; the
result is the log after the call. The result code of `cudaFreeHost` is not
looked at by the source. -/
def deallocate (released : List Nat) (ptr : Nat) (_n : Nat) : List Nat :=
  if ptr ≠ NULL then released ++ [ptr] else released

/-- Source: `max_size() const throw() { return std::numeric_limits<size_type>::max(); }`. -/
def max_size (w : Nat) : Nat := 2 ^ w - 1

end HostAllocator

/-! ## The concrete scenario of the specification -/

/-- The storage of the scenario: twelve sequential integers 0..11 stored from
raw address 100 on (the element at address `100 + i` is `i`). -/
def scenario_storage : Memory Nat := fun a => a - 100

/-- The 3×4 matrix view of the scenario, built over `scenario_storage` with
a 64-bit `size_type`. -/
def scenario_matrix : __device_matrix :=
  __device_matrix.new 64 (Pointer.plain 100) 3 4

/-- The 3×4 contiguous-row matrix view of the scenario. -/
def scenario_row_matrix : __device_contiguous_row_matrix :=
  __device_contiguous_row_matrix.new 64 (Pointer.plain 100) 3 4

/-! ## Address arithmetic -/

open pointer_traits

theorem undress_increment (p : Pointer) (n : Nat) :
    undress (increment p n) = undress p + n * raw_step p := by
  induction p generalizing n with
  | plain a => simp [increment, undress, raw_step]
  | striding b s ih => simp [increment, undress, raw_step, ih, Nat.mul_assoc]

theorem raw_step_increment (p : Pointer) (n : Nat) :
    raw_step (increment p n) = raw_step p := by
  induction p generalizing n with
  | plain a => simp [increment, raw_step]
  | striding b s ih => simp [increment, raw_step, ih]

theorem increment_increment (p : Pointer) (a b : Nat) :
    increment (increment p a) b = increment p (a + b) := by
  induction p generalizing a b with
  | plain x => simp [increment, Nat.add_assoc]
  | striding q s ih => simp [increment, ih, Nat.add_mul]

theorem increment_zero (p : Pointer) : increment p 0 = p := by
  induction p with
  | plain x => simp [increment]
  | striding q s ih => simp [increment, ih]

/-- A traversal from the `k`-th position of an address with a nonzero raw step
to the position `d` places further visits exactly those `d` positions. -/
theorem traverse_positions (p : Pointer) (hs : 0 < raw_step p) (last : device_iterator) :
    ∀ (d k fuel : Nat), d ≤ fuel →
      undress last.ptr = undress p + (k + d) * raw_step p →
      traverse fuel ⟨increment p k⟩ last
        = some ((List.range' k d).map (fun i => undress p + i * raw_step p)) := by
  intro d
  induction d with
  | zero =>
    intro k fuel _ hlast
    unfold traverse
    simp [device_iterator.ne, undress_increment, hlast]
  | succ d ih =>
    intro k fuel hfuel hlast
    obtain ⟨f, rfl⟩ : ∃ f, fuel = f + 1 := ⟨fuel - 1, by omega⟩
    have hne : undress p + k * raw_step p ≠ undress p + (k + (d + 1)) * raw_step p := by
      have : k * raw_step p < (k + (d + 1)) * raw_step p :=
        Nat.mul_lt_mul_of_pos_right (by omega) hs
      omega
    unfold traverse
    have hnext : (device_iterator.mk (increment p k)).next = ⟨increment p (k + 1)⟩ := by
      simp [device_iterator.next, increment_increment]
    have hrec := ih (k + 1) f (by omega) (by rw [hlast]; congr 2; omega)
    simp [device_iterator.ne, undress_increment, hlast, hne, hnext, hrec,
      device_iterator.address, List.range']

/-- A traversal between two iterators that denote the same raw address visits
nothing, whatever the fuel. -/
theorem traverse_same_address (fuel : Nat) (it last : device_iterator)
    (h : undress it.ptr = undress last.ptr) : traverse fuel it last = some [] := by
  unfold traverse
  simp [device_iterator.ne, h]

/-- The addresses visited through a view whose address strategy has a nonzero
raw step. -/
theorem addresses_eq (s : __device_sequence) (fuel : Nat) (hs : 0 < raw_step s.ptr)
    (hfuel : s.length ≤ fuel) :
    __device_sequence.addresses fuel s
      = some ((List.range s.length).map (fun i => undress s.ptr + i * raw_step s.ptr)) := by
  have h := traverse_positions s.ptr hs (__device_sequence.end_ s) s.length 0 fuel hfuel
    (by simp [__device_sequence.end_, __device_sequence.size, undress_increment])
  rw [increment_zero] at h
  simpa [__device_sequence.addresses, __device_sequence.begin, cast_to_modifiable,
    List.range_eq_range'] using h

/-- A view whose address strategy has raw step zero has `begin() == end()`: the
traversal visits nothing. -/
theorem addresses_zero_step (s : __device_sequence) (fuel : Nat) (hs : raw_step s.ptr = 0) :
    __device_sequence.addresses fuel s = some [] := by
  apply traverse_same_address
  simp [__device_sequence.begin, __device_sequence.end_, cast_to_modifiable,
    undress_increment, hs]

/-- The elements observed through a view whose address strategy has a nonzero
raw step. -/
theorem elements_eq {α : Type} (mem : Memory α) (s : __device_sequence) (fuel : Nat)
    (hs : 0 < raw_step s.ptr) (hfuel : s.length ≤ fuel) :
    __device_sequence.elements fuel mem s
      = some ((List.range s.length).map (fun i => mem (undress s.ptr + i * raw_step s.ptr))) := by
  simp [__device_sequence.elements, addresses_eq s fuel hs hfuel, Function.comp_def]

/-! ## The element-wise exchange -/

theorem swap_left {α : Type} (mem : Memory α) (x y : Nat) : swap mem x y x = mem y := by
  by_cases h : x = y <;> simp [swap, Memory.write, h]

theorem swap_right {α : Type} (mem : Memory α) (x y : Nat) : swap mem x y y = mem x := by
  simp [swap, Memory.write]

theorem swap_other {α : Type} (mem : Memory α) (x y z : Nat) (hx : z ≠ x) (hy : z ≠ y) :
    swap mem x y z = mem z := by
  simp [swap, Memory.write, hx, hy]

/-- The element-wise loop started at position `k` of two address strategies with
nonzero raw steps returns, and it exchanges the elements at the positions
`k, ..., n-1` pairwise and leaves every other address alone. -/
theorem swap_loop_spec {α : Type} (pa pb : Pointer) (ha : 0 < raw_step pa)
    (hb : 0 < raw_step pb) (n : Nat) (last : device_iterator)
    (hlast : undress last.ptr = undress pa + n * raw_step pa)
    (hdisj : ∀ i j, i < n → j < n →
      undress pa + i * raw_step pa ≠ undress pb + j * raw_step pb) :
    ∀ (d k fuel : Nat) (mem : Memory α), k + d = n → d ≤ fuel →
      ∃ mem', __device_sequence.swap_loop fuel mem ⟨increment pa k⟩ ⟨increment pb k⟩ last
          = some mem' ∧
        (∀ i, k ≤ i → i < n →
          mem' (undress pa + i * raw_step pa) = mem (undress pb + i * raw_step pb) ∧
          mem' (undress pb + i * raw_step pb) = mem (undress pa + i * raw_step pa)) ∧
        (∀ x, (∀ i, k ≤ i → i < n →
          x ≠ undress pa + i * raw_step pa ∧ x ≠ undress pb + i * raw_step pb) →
          mem' x = mem x) := by
  intro d
  induction d with
  | zero =>
    intro k fuel mem hk _
    refine ⟨mem, ?_, ?_, ?_⟩
    · unfold __device_sequence.swap_loop
      have : k = n := by omega
      simp [device_iterator.ne, undress_increment, hlast, this]
    · intro i h1 h2; omega
    · intro x _; rfl
  | succ d ih =>
    intro k fuel mem hk hfuel
    obtain ⟨f, rfl⟩ : ∃ f, fuel = f + 1 := ⟨fuel - 1, by omega⟩
    have hkn : k < n := by omega
    have hne : undress pa + k * raw_step pa ≠ undress pa + n * raw_step pa := by
      have : k * raw_step pa < n * raw_step pa := Nat.mul_lt_mul_of_pos_right hkn ha
      omega
    have hmono_a : ∀ i, k < i → undress pa + k * raw_step pa ≠ undress pa + i * raw_step pa := by
      intro i hi
      have : k * raw_step pa < i * raw_step pa := Nat.mul_lt_mul_of_pos_right hi ha
      omega
    have hmono_b : ∀ i, k < i → undress pb + k * raw_step pb ≠ undress pb + i * raw_step pb := by
      intro i hi
      have : k * raw_step pb < i * raw_step pb := Nat.mul_lt_mul_of_pos_right hi hb
      omega
    obtain ⟨mem', hrun, hswapped, hrest⟩ :=
      ih (k + 1) f
        (swap mem (undress pa + k * raw_step pa) (undress pb + k * raw_step pb))
        (by omega) (by omega)
    refine ⟨mem', ?_, ?_, ?_⟩
    · unfold __device_sequence.swap_loop
      simp [device_iterator.ne, undress_increment, hlast, hne, device_iterator.next,
        device_iterator.address, increment_increment, hrun]
    · intro i hki hin
      by_cases hik : i = k
      · subst hik
        have h1 : mem' (undress pa + i * raw_step pa)
            = swap mem (undress pa + i * raw_step pa) (undress pb + i * raw_step pb)
                (undress pa + i * raw_step pa) :=
          hrest _ (fun j hj hjn => ⟨hmono_a j (by omega), hdisj i j hin hjn⟩)
        have h2 : mem' (undress pb + i * raw_step pb)
            = swap mem (undress pa + i * raw_step pa) (undress pb + i * raw_step pb)
                (undress pb + i * raw_step pb) :=
          hrest _ (fun j hj hjn => ⟨fun h => hdisj j i hjn hin h.symm, hmono_b j (by omega)⟩)
        rw [h1, h2, swap_left, swap_right]
        exact ⟨rfl, rfl⟩
      · obtain ⟨h1, h2⟩ := hswapped i (by omega) hin
        rw [h1, h2]
        constructor
        · exact swap_other mem _ _ _ (fun h => hdisj k i hkn hin h.symm)
            (fun h => hmono_b i (by omega) h.symm)
        · exact swap_other mem _ _ _ (fun h => hmono_a i (by omega) h.symm)
            (fun h => hdisj i k hin hkn h)
    · intro x hx
      rw [hrest x (fun i hi hin => hx i (by omega) hin)]
      exact swap_other mem _ _ _ (hx k (Nat.le_refl k) hkn).1 (hx k (Nat.le_refl k) hkn).2

/-- C3, as amended: the swap law of `__device_sequence::swap`. Under the
element-wise strategy (accelerator) it holds for two views of equal length over
non-overlapping storage whose strides are both nonzero or both zero: the loop
returns, and afterwards the elements observed through `a` are the elements
observed through `b` before and vice versa. Under the field-exchange strategy
(host) it holds for views of any lengths. -/
theorem swap_law {α : Type} (mem : Memory α) (a b : __device_sequence) (fuel : Nat)
    (hfuel_a : a.length ≤ fuel) (hfuel_b : b.length ≤ fuel) :
    (a.length = b.length → (raw_step a.ptr = 0 ↔ raw_step b.ptr = 0) →
      (∀ i j, i < a.length → j < b.length →
        undress (increment a.ptr i) ≠ undress (increment b.ptr j)) →
      ∃ mem' ea eb, __device_sequence.swap_device fuel mem a b = some mem' ∧
        __device_sequence.elements fuel mem a = some ea ∧
        __device_sequence.elements fuel mem b = some eb ∧
        __device_sequence.elements fuel mem' a = some eb ∧
        __device_sequence.elements fuel mem' b = some ea) ∧
    (∃ ea eb, __device_sequence.elements fuel mem a = some ea ∧
        __device_sequence.elements fuel mem b = some eb ∧
        __device_sequence.elements fuel mem (__device_sequence.swap_host a b).1 = some eb ∧
        __device_sequence.elements fuel mem (__device_sequence.swap_host a b).2 = some ea) := by
  constructor
  · intro hlen hstep hdisj
    by_cases ha : raw_step a.ptr = 0
    · have hb : raw_step b.ptr = 0 := hstep.mp ha
      refine ⟨mem, [], [], ?_, ?_, ?_, ?_, ?_⟩
      · unfold __device_sequence.swap_device __device_sequence.swap_loop
        simp [device_iterator.ne, __device_sequence.begin, __device_sequence.end_,
          cast_to_modifiable, undress_increment, ha]
      all_goals simp [__device_sequence.elements, addresses_zero_step, ha, hb]
    · have hb : raw_step b.ptr ≠ 0 := fun h => ha (hstep.mpr h)
      have hpa : 0 < raw_step a.ptr := Nat.pos_of_ne_zero ha
      have hpb : 0 < raw_step b.ptr := Nat.pos_of_ne_zero hb
      obtain ⟨mem', hrun, hswapped, -⟩ :=
        swap_loop_spec a.ptr b.ptr hpa hpb a.length (__device_sequence.end_ a)
          (by simp [__device_sequence.end_, __device_sequence.size, undress_increment])
          (fun i j hi hj => by
            have h := hdisj i j hi (hlen ▸ hj)
            simpa [undress_increment] using h)
          a.length 0 fuel mem (by omega) hfuel_a
      rw [increment_zero, increment_zero] at hrun
      refine ⟨mem', _, _, hrun, elements_eq mem a fuel hpa hfuel_a,
        elements_eq mem b fuel hpb hfuel_b, ?_, ?_⟩
      · rw [elements_eq mem' a fuel hpa hfuel_a, ← hlen]
        congr 1
        apply List.map_congr_left
        intro i hi
        exact (hswapped i (Nat.zero_le i) (List.mem_range.mp hi)).1
      · rw [elements_eq mem' b fuel hpb hfuel_b, ← hlen]
        congr 1
        apply List.map_congr_left
        intro i hi
        exact (hswapped i (Nat.zero_le i) (List.mem_range.mp hi)).2
  · have hsome : ∀ s : __device_sequence, s.length ≤ fuel →
        ∃ e, __device_sequence.elements fuel mem s = some e := by
      intro s hs
      by_cases h0 : raw_step s.ptr = 0
      · exact ⟨[], by simp [__device_sequence.elements, addresses_zero_step, h0]⟩
      · exact ⟨_, elements_eq mem s fuel (Nat.pos_of_ne_zero h0) hs⟩
    obtain ⟨ea, hea⟩ := hsome a hfuel_a
    obtain ⟨eb, heb⟩ := hsome b hfuel_b
    exact ⟨ea, eb, hea, heb, heb, hea⟩

/-- Witness of C3: two views of two elements each, at the raw addresses 0, 1 and
10, 11, over storage that holds its own address as value. -/
theorem swap_law_witness :
    (2 ≤ 2 ∧ 2 = 2 ∧ ((1 : Nat) = 0 ↔ (1 : Nat) = 0) ∧
      (∀ i j, i < 2 → j < 2 →
        undress (increment (Pointer.plain 0) i) ≠ undress (increment (Pointer.plain 10) j))) ∧
    (∃ mem' ea eb,
        __device_sequence.swap_device 2 (fun x : Nat => x)
          (__device_sequence.new (Pointer.plain 0) 2)
          (__device_sequence.new (Pointer.plain 10) 2) = some mem' ∧
        __device_sequence.elements 2 (fun x : Nat => x)
          (__device_sequence.new (Pointer.plain 0) 2) = some ea ∧
        __device_sequence.elements 2 (fun x : Nat => x)
          (__device_sequence.new (Pointer.plain 10) 2) = some eb ∧
        __device_sequence.elements 2 mem' (__device_sequence.new (Pointer.plain 0) 2)
          = some eb ∧
        __device_sequence.elements 2 mem' (__device_sequence.new (Pointer.plain 10) 2)
          = some ea) ∧
    (∃ ea eb,
        __device_sequence.elements 2 (fun x : Nat => x)
          (__device_sequence.new (Pointer.plain 0) 2) = some ea ∧
        __device_sequence.elements 2 (fun x : Nat => x)
          (__device_sequence.new (Pointer.plain 10) 2) = some eb ∧
        __device_sequence.elements 2 (fun x : Nat => x)
          (__device_sequence.swap_host (__device_sequence.new (Pointer.plain 0) 2)
            (__device_sequence.new (Pointer.plain 10) 2)).1 = some eb ∧
        __device_sequence.elements 2 (fun x : Nat => x)
          (__device_sequence.swap_host (__device_sequence.new (Pointer.plain 0) 2)
            (__device_sequence.new (Pointer.plain 10) 2)).2 = some ea) :=
  have hdisj : ∀ i j, i < 2 → j < 2 →
      undress (increment (Pointer.plain 0) i) ≠ undress (increment (Pointer.plain 10) j) := by
    intro i j hi hj
    simp only [increment, undress]
    omega
  ⟨⟨Nat.le_refl 2, rfl, Iff.rfl, hdisj⟩,
    (swap_law (fun x : Nat => x) (__device_sequence.new (Pointer.plain 0) 2)
      (__device_sequence.new (Pointer.plain 10) 2) 2 (Nat.le_refl 2) (Nat.le_refl 2)).1
      rfl Iff.rfl hdisj,
    (swap_law (fun x : Nat => x) (__device_sequence.new (Pointer.plain 0) 2)
      (__device_sequence.new (Pointer.plain 10) 2) 2 (Nat.le_refl 2) (Nat.le_refl 2)).2⟩

/-- C3 fails as stated: under the element-wise strategy with `a` of length 1 at
raw address 0 and `b` of length 2 at raw address 10 (storage holding its own
address as value), the loop runs over `a` alone; afterwards `b` shows `[0, 11]`,
which is not what `a` showed before, `[0]`. Likewise with two views of length 1
over striding addresses, `a` with stride 0 and `b` with stride 1: the loop does
not run, `b` still shows `[10]`, and `a` showed nothing. -/
theorem swap_law_fails_unequal_lengths :
    ((__device_sequence.swap_device 2 (fun x : Nat => x)
        (__device_sequence.new (Pointer.plain 0) 1)
        (__device_sequence.new (Pointer.plain 10) 2)).bind
      (fun mem' => __device_sequence.elements 2 mem' (__device_sequence.new (Pointer.plain 10) 2))
      = some [0, 11] ∧
    __device_sequence.elements 2 (fun x : Nat => x) (__device_sequence.new (Pointer.plain 0) 1)
      = some [0]) ∧
    ((__device_sequence.swap_device 2 (fun x : Nat => x)
        (__device_sequence.new (Pointer.striding (Pointer.plain 0) 0) 1)
        (__device_sequence.new (Pointer.striding (Pointer.plain 10) 1) 1)).bind
      (fun mem' => __device_sequence.elements 2 mem'
        (__device_sequence.new (Pointer.striding (Pointer.plain 10) 1) 1))
      = some [10] ∧
    __device_sequence.elements 2 (fun x : Nat => x)
        (__device_sequence.new (Pointer.striding (Pointer.plain 0) 0) 1)
      = some []) := by
  refine ⟨⟨?_, ?_⟩, ?_, ?_⟩ <;> decide

/-! ## Traversal of a sequence view -/

/-- C4, as amended: a `__device_sequence` constructed from (address, length)
has `size() == length`; the traversal from `begin()` to `end()` returns and
visits exactly `length` elements, at the raw addresses `address, address+1, ...,
address+length-1` for a plain address, and at `address, address+stride,
address+2*stride, ...` for a striding address whose stride is nonzero (or whose
length is zero). -/
theorem sequence_traversal (address length stride fuel : Nat) (hfuel : length ≤ fuel) :
    (__device_sequence.new (Pointer.plain address) length).size = length ∧
    __device_sequence.addresses fuel (__device_sequence.new (Pointer.plain address) length)
      = some ((List.range length).map (fun i => address + i)) ∧
    (__device_sequence.new (Pointer.striding (Pointer.plain address) stride) length).size
      = length ∧
    (0 < stride ∨ length = 0 →
      __device_sequence.addresses fuel
          (__device_sequence.new (Pointer.striding (Pointer.plain address) stride) length)
        = some ((List.range length).map (fun i => address + i * stride))) := by
  refine ⟨rfl, ?_, rfl, ?_⟩
  · have h := addresses_eq (__device_sequence.new (Pointer.plain address) length) fuel
      (by simp [__device_sequence.new, raw_step]) hfuel
    simpa [__device_sequence.new, raw_step, undress] using h
  · intro hstride
    by_cases h0 : stride = 0
    · have hl : length = 0 := by omega
      subst hl
      rw [addresses_zero_step _ _ (by simp [__device_sequence.new, raw_step, h0])]
      simp
    · have h := addresses_eq
        (__device_sequence.new (Pointer.striding (Pointer.plain address) stride) length) fuel
        (by simp [__device_sequence.new, raw_step]; omega) hfuel
      simpa [__device_sequence.new, raw_step, undress] using h

/-- Witness of C4: a view of three elements at raw address 100, plain and with
stride 4. -/
theorem sequence_traversal_witness :
    (3 ≤ 3 ∧ (0 < 4 ∨ 3 = 0)) ∧
    (__device_sequence.new (Pointer.plain 100) 3).size = 3 ∧
    __device_sequence.addresses 3 (__device_sequence.new (Pointer.plain 100) 3)
      = some ((List.range 3).map (fun i => 100 + i)) ∧
    (__device_sequence.new (Pointer.striding (Pointer.plain 100) 4) 3).size = 3 ∧
    __device_sequence.addresses 3
        (__device_sequence.new (Pointer.striding (Pointer.plain 100) 4) 3)
      = some ((List.range 3).map (fun i => 100 + i * 4)) :=
  ⟨⟨Nat.le_refl 3, Or.inl (by decide)⟩,
    (sequence_traversal 100 3 4 3 (Nat.le_refl 3)).1,
    (sequence_traversal 100 3 4 3 (Nat.le_refl 3)).2.1,
    (sequence_traversal 100 3 4 3 (Nat.le_refl 3)).2.2.1,
    (sequence_traversal 100 3 4 3 (Nat.le_refl 3)).2.2.2 (Or.inl (by decide))⟩

/-- C4 fails as stated: a view of length 3 over a striding address with stride 0
has `size() == 3`, but `end()` denotes the same raw address as `begin()`, so the
traversal visits no element at all, whatever the fuel. -/
theorem sequence_traversal_fails_stride_zero :
    (__device_sequence.new (Pointer.striding (Pointer.plain 100) 0) 3).size = 3 ∧
    ∀ fuel, __device_sequence.addresses fuel
      (__device_sequence.new (Pointer.striding (Pointer.plain 100) 0) 3) = some [] := by
  refine ⟨rfl, fun fuel => ?_⟩
  exact addresses_zero_step _ fuel (by simp [__device_sequence.new, raw_step])

/-! ## Shape of a matrix view -/

/-- With a nonzero row count the column count is defined and is `size()/rows`. -/
theorem number_columns_eq (m : __device_matrix) (hrows : 0 < m.rows) :
    __device_matrix.number_columns m = some (m.length / m.rows) := by
  have h : m.rows ≠ 0 := by omega
  simp [__device_matrix.number_columns, __device_sequence.size, h]

/-- A defined column count times the row count never exceeds the total length. -/
theorem rows_mul_columns_le (m : __device_matrix) (columns : Nat)
    (hcols : __device_matrix.number_columns m = some columns) :
    0 < m.rows ∧ m.rows * columns ≤ m.length := by
  unfold __device_matrix.number_columns at hcols
  by_cases h : m.rows = 0
  · simp [h] at hcols
  · simp [h, __device_sequence.size] at hcols
    subst hcols
    exact ⟨by omega, Nat.mul_div_le m.length m.rows⟩

/-- The flattened offset of a valid (row, column) pair is below the total length. -/
theorem flattened_offset_lt (m : __device_matrix) (columns row column : Nat)
    (hcols : __device_matrix.number_columns m = some columns)
    (hrow : row < m.rows) (hcol : column < columns) :
    row * columns + column < m.length := by
  have h := (rows_mul_columns_le m columns hcols).2
  have h1 : (row + 1) * columns ≤ m.rows * columns := Nat.mul_le_mul_right columns (by omega)
  have h2 : (row + 1) * columns = row * columns + columns := by ring
  omega

/-! ## Element access of a matrix view -/

/-- C1, evaluated on the code: in the 3×4 scenario `get_row(1)[2]` reads raw
address 106 (the element 6) while `get_column(2)[1]` reads raw address 103 (the
element 3), because `operator[]` adds the index to the stripped address and
ignores the stride of the column view. -/
theorem get_row_index_ne_get_column_index :
    (__device_matrix.get_row 64 scenario_matrix 1).map (fun row => row.operator_index 2)
        = some 106 ∧
      (__device_matrix.get_column scenario_matrix 2).map (fun col => col.operator_index 1)
        = some 103 ∧
      scenario_storage 106 = 6 ∧ scenario_storage 103 = 3 := by
  refine ⟨?_, ?_, ?_, ?_⟩ <;> decide

/-- C2: in a contiguous-row matrix view over a plain address `base`, with
`rows > 0`, the column count is defined and for every `row < number_rows()` and
`column < number_columns()` the call `at(row, column)` dereferences the raw
address `base + (row*number_columns() + column)`; in the 3×4 scenario over
0..11, `at(1,2)` reads 6. -/
theorem at_flattened_offset (w base : Nat) (m : __device_contiguous_row_matrix)
    (hptr : m.ptr = Pointer.plain base) (hsize : m.length < 2 ^ w) (hrows : 0 < m.rows) :
    (∃ columns, m.to__device_matrix.number_columns = some columns ∧
      ∀ row column, row < m.to__device_matrix.number_rows → column < columns →
        __device_contiguous_row_matrix.at_ w m row column
          = some (base + (row * columns + column))) ∧
    (__device_contiguous_row_matrix.at_ 64 scenario_row_matrix 1 2).map scenario_storage
      = some 6 := by
  refine ⟨⟨m.length / m.rows, number_columns_eq m.to__device_matrix hrows, ?_⟩, by decide⟩
  intro row column hrow hcol
  have hcols := number_columns_eq m.to__device_matrix hrows
  have hlt := flattened_offset_lt m.to__device_matrix _ row column hcols hrow hcol
  have h1 : row * (m.length / m.rows) % 2 ^ w = row * (m.length / m.rows) :=
    Nat.mod_eq_of_lt (by omega)
  have h2 : (row * (m.length / m.rows) + column) % 2 ^ w = row * (m.length / m.rows) + column :=
    Nat.mod_eq_of_lt (by omega)
  simp [__device_contiguous_row_matrix.at_, hcols, hptr, increment, undress, h1, h2]

/-- Witness of C2: the general statement applied to the 3×4 scenario matrix. -/
theorem at_flattened_offset_witness :
    (scenario_row_matrix.ptr = Pointer.plain 100 ∧ scenario_row_matrix.length < 2 ^ 64 ∧
      0 < scenario_row_matrix.rows) ∧
    (∃ columns, scenario_row_matrix.to__device_matrix.number_columns = some columns ∧
      ∀ row column, row < scenario_row_matrix.to__device_matrix.number_rows →
        column < columns →
        __device_contiguous_row_matrix.at_ 64 scenario_row_matrix row column
          = some (100 + (row * columns + column))) ∧
    (__device_contiguous_row_matrix.at_ 64 scenario_row_matrix 1 2).map scenario_storage
      = some 6 :=
  ⟨⟨rfl, by decide, by decide⟩,
    at_flattened_offset 64 100 scenario_row_matrix rfl (by decide) (by decide)⟩

/-! ## Row and column views -/

/-- C5, as amended: for every matrix view whose column count is defined and every
column index `c < number_columns()`, `get_column(c)` returns a sequence view of
length `number_rows()` over the striding address built from the parent's address
advanced by `c`, with stride `number_columns()`. When the parent's address
strategy has a nonzero stride (a plain address, or striding addresses with
nonzero strides), the traversal of that view returns and visits the parent's
positions `c, c + columns, c + 2*columns, ...` (over a plain address `base`: the
raw addresses `base + c + i*columns`). In the 3×4 scenario over 0..11,
`get_column(2)` yields `[2,6,10]`. -/
theorem get_column_view (m : __device_matrix) (columns column fuel : Nat)
    (hcols : __device_matrix.number_columns m = some columns) (hcol : column < columns)
    (hfuel : __device_matrix.number_rows m ≤ fuel) :
    __device_matrix.get_column m column
        = some (__device_sequence.new (Pointer.striding (increment m.ptr column) columns)
            (__device_matrix.number_rows m)) ∧
    (0 < raw_step m.ptr →
      (__device_matrix.get_column m column).bind (__device_sequence.addresses fuel)
        = some ((List.range (__device_matrix.number_rows m)).map
            (fun i => undress (increment m.ptr (column + i * columns))))) ∧
    (∀ base, m.ptr = Pointer.plain base →
      (__device_matrix.get_column m column).bind (__device_sequence.addresses fuel)
        = some ((List.range (__device_matrix.number_rows m)).map
            (fun i => base + (column + i * columns)))) ∧
    (__device_matrix.get_column scenario_matrix 2).bind
        (__device_sequence.elements 3 scenario_storage) = some [2, 6, 10] := by
  have hget : __device_matrix.get_column m column
      = some (__device_sequence.new (Pointer.striding (increment m.ptr column) columns)
          (__device_matrix.number_rows m)) := by
    simp [__device_matrix.get_column, hcols]
  have hgen : 0 < raw_step m.ptr →
      (__device_matrix.get_column m column).bind (__device_sequence.addresses fuel)
        = some ((List.range (__device_matrix.number_rows m)).map
            (fun i => undress (increment m.ptr (column + i * columns)))) := by
    intro hstep
    have hpos : 0 < columns * raw_step m.ptr := Nat.mul_pos (by omega) hstep
    have h := addresses_eq
      (__device_sequence.new (Pointer.striding (increment m.ptr column) columns)
        (__device_matrix.number_rows m)) fuel
      (by simpa [__device_sequence.new, raw_step, raw_step_increment] using hpos)
      (by simpa [__device_sequence.new] using hfuel)
    rw [hget, Option.some_bind, h]
    simp only [__device_sequence.new, raw_step, undress, undress_increment, raw_step_increment,
      Option.some.injEq]
    apply List.map_congr_left
    intro i _
    ring
  refine ⟨hget, hgen, ?_, by decide⟩
  intro base hbase
  rw [hgen (by simp [hbase, raw_step])]
  simp [hbase, increment, undress]

/-- Witness of C5: the general statement applied to the 3×4 scenario matrix and
its column 2. -/
theorem get_column_view_witness :
    (__device_matrix.number_columns scenario_matrix = some 4 ∧ 2 < 4 ∧
      __device_matrix.number_rows scenario_matrix ≤ 3 ∧ 0 < raw_step scenario_matrix.ptr ∧
      scenario_matrix.ptr = Pointer.plain 100) ∧
    __device_matrix.get_column scenario_matrix 2
        = some (__device_sequence.new (Pointer.striding (increment scenario_matrix.ptr 2) 4)
            (__device_matrix.number_rows scenario_matrix)) ∧
    (__device_matrix.get_column scenario_matrix 2).bind (__device_sequence.addresses 3)
        = some ((List.range (__device_matrix.number_rows scenario_matrix)).map
            (fun i => undress (increment scenario_matrix.ptr (2 + i * 4)))) ∧
    (__device_matrix.get_column scenario_matrix 2).bind (__device_sequence.addresses 3)
        = some ((List.range (__device_matrix.number_rows scenario_matrix)).map
            (fun i => 100 + (2 + i * 4))) ∧
    (__device_matrix.get_column scenario_matrix 2).bind
        (__device_sequence.elements 3 scenario_storage) = some [2, 6, 10] :=
  have h := get_column_view scenario_matrix 4 2 3 (by decide) (by decide) (by decide)
  ⟨⟨by decide, by decide, by decide, by decide, rfl⟩,
    h.1, h.2.1 (by decide), h.2.2.1 100 rfl, h.2.2.2⟩

/-- C5 fails as stated: the 3×4 matrix view over the striding address with base
100 and stride 0 has 4 columns, and `get_column(2)` is a view of length 3; but
its `end()` denotes the same raw address as its `begin()`, so the traversal
visits no element at all, whatever the fuel, instead of three. -/
theorem get_column_fails_stride_zero_parent :
    __device_matrix.number_columns
        (__device_matrix.new 64 (Pointer.striding (Pointer.plain 100) 0) 3 4) = some 4 ∧
    (__device_matrix.get_column
        (__device_matrix.new 64 (Pointer.striding (Pointer.plain 100) 0) 3 4) 2).map
      (fun view => view.size) = some 3 ∧
    ∀ fuel,
      (__device_matrix.get_column
          (__device_matrix.new 64 (Pointer.striding (Pointer.plain 100) 0) 3 4) 2).bind
        (__device_sequence.addresses fuel) = some [] := by
  refine ⟨by decide, by decide, fun fuel => ?_⟩
  have hget : __device_matrix.get_column
      (__device_matrix.new 64 (Pointer.striding (Pointer.plain 100) 0) 3 4) 2
      = some (__device_sequence.new
          (Pointer.striding (increment (Pointer.striding (Pointer.plain 100) 0) 2) 4) 3) := by
    decide
  rw [hget, Option.some_bind]
  exact addresses_zero_step _ fuel (by simp [__device_sequence.new, raw_step, increment])

/-- C6: for every matrix view with `rows > 0` (its total length being a
`size_type` value) the column count is defined, and for every row index
`r < number_rows()` both `__device_matrix::get_row(r)` and
`__device_contiguous_row_matrix::get_row(r)`, and likewise both `operator[](r)`,
return a sequence view of length `number_columns()` whose first element is the
parent's position `r*number_columns()` (raw address `base + r*number_columns()`
over a plain address `base`). In the 3×4 scenario over 0..11, `get_row(1)` yields
`[4,5,6,7]`. -/
theorem get_row_view (w : Nat) (m : __device_contiguous_row_matrix)
    (hsize : m.length < 2 ^ w) (hrows : 0 < m.rows) :
    (∃ columns, __device_matrix.number_columns m.to__device_matrix = some columns ∧
      ∀ row, row < __device_matrix.number_rows m.to__device_matrix →
        (∃ view, __device_matrix.get_row w m.to__device_matrix row = some view ∧
          __device_matrix.operator_index w m.to__device_matrix row = some view ∧
          view.size = columns ∧
          view.begin.address = undress (increment m.ptr (row * columns)) ∧
          (∀ base, m.ptr = Pointer.plain base → view.begin.address = base + row * columns)) ∧
        (∃ view, __device_contiguous_row_matrix.get_row w m row = some view ∧
          __device_contiguous_row_matrix.operator_index w m row = some view ∧
          view.to__device_sequence.size = columns ∧
          view.to__device_sequence.begin.address = undress (increment m.ptr (row * columns)) ∧
          (∀ base, m.ptr = Pointer.plain base →
            view.to__device_sequence.begin.address = base + row * columns))) ∧
    (__device_matrix.get_row 64 scenario_matrix 1).bind
        (__device_sequence.elements 4 scenario_storage) = some [4, 5, 6, 7] ∧
    (__device_contiguous_row_matrix.get_row 64 scenario_row_matrix 1).bind
        (fun view => __device_sequence.elements 4 scenario_storage view.to__device_sequence)
      = some [4, 5, 6, 7] := by
  refine ⟨⟨m.length / m.rows, number_columns_eq m.to__device_matrix hrows, ?_⟩,
    by decide, by decide⟩
  intro row hrow
  have hcols := number_columns_eq m.to__device_matrix hrows
  have hle := (rows_mul_columns_le m.to__device_matrix _ hcols).2
  have hmul : row * (m.length / m.rows) ≤ m.rows * (m.length / m.rows) :=
    Nat.mul_le_mul_right _ (Nat.le_of_lt hrow)
  have hmod : row * (m.length / m.rows) % 2 ^ w = row * (m.length / m.rows) :=
    Nat.mod_eq_of_lt (by omega)
  constructor
  · refine ⟨__device_sequence.new (increment m.ptr (row * (m.length / m.rows)))
      (m.length / m.rows), ?_, ?_, rfl, rfl, ?_⟩
    · simp [__device_matrix.get_row, hcols, hmod]
    · simp [__device_matrix.operator_index, __device_matrix.get_row, hcols, hmod]
    · intro base hbase
      simp [__device_sequence.new, __device_sequence.begin, device_iterator.address,
        cast_to_modifiable, hbase, increment, undress]
  · refine ⟨__device_contiguous_sequence.new
      (Pointer.plain (undress (increment m.ptr (row * (m.length / m.rows)))))
      (m.length / m.rows), ?_, ?_, rfl, rfl, ?_⟩
    · simp [__device_contiguous_row_matrix.get_row, hcols, hmod]
    · simp [__device_contiguous_row_matrix.operator_index,
        __device_contiguous_row_matrix.get_row, hcols, hmod]
    · intro base hbase
      simp [__device_contiguous_sequence.new, __device_sequence.new, __device_sequence.begin,
        device_iterator.address, cast_to_modifiable, hbase, increment, undress]

/-- Witness of C6: the general statement applied to the 3×4 scenario matrix. -/
theorem get_row_view_witness :
    (scenario_row_matrix.length < 2 ^ 64 ∧ 0 < scenario_row_matrix.rows) ∧
    (∃ columns,
      __device_matrix.number_columns scenario_row_matrix.to__device_matrix = some columns ∧
      ∀ row, row < __device_matrix.number_rows scenario_row_matrix.to__device_matrix →
        (∃ view,
          __device_matrix.get_row 64 scenario_row_matrix.to__device_matrix row = some view ∧
          __device_matrix.operator_index 64 scenario_row_matrix.to__device_matrix row
            = some view ∧
          view.size = columns ∧
          view.begin.address = undress (increment scenario_row_matrix.ptr (row * columns)) ∧
          (∀ base, scenario_row_matrix.ptr = Pointer.plain base →
            view.begin.address = base + row * columns)) ∧
        (∃ view, __device_contiguous_row_matrix.get_row 64 scenario_row_matrix row = some view ∧
          __device_contiguous_row_matrix.operator_index 64 scenario_row_matrix row
            = some view ∧
          view.to__device_sequence.size = columns ∧
          view.to__device_sequence.begin.address
            = undress (increment scenario_row_matrix.ptr (row * columns)) ∧
          (∀ base, scenario_row_matrix.ptr = Pointer.plain base →
            view.to__device_sequence.begin.address = base + row * columns))) ∧
    (__device_matrix.get_row 64 scenario_matrix 1).bind
        (__device_sequence.elements 4 scenario_storage) = some [4, 5, 6, 7] ∧
    (__device_contiguous_row_matrix.get_row 64 scenario_row_matrix 1).bind
        (fun view => __device_sequence.elements 4 scenario_storage view.to__device_sequence)
      = some [4, 5, 6, 7] :=
  ⟨⟨by decide, by decide⟩, get_row_view 64 scenario_row_matrix (by decide) (by decide)⟩

/-! ## Indexing against iteration -/

/-- C7, evaluated on the code: for the view of length 3 over the striding address
with base 100 and stride 4, `operator[](1)` denotes raw address 101 while the
iterator obtained by advancing `begin()` once denotes raw address 104; a value
written through `operator[](1)` is not the value read back through that iterator
(the storage still shows the old element 4 there). Over a plain address the two
agree. -/
theorem operator_index_ne_iterator_position :
    (__device_sequence.new (Pointer.striding (Pointer.plain 100) 4) 3).operator_index 1
      = 101 ∧
    ((__device_sequence.new (Pointer.striding (Pointer.plain 100) 4) 3).begin.advance 1).address
      = 104 ∧
    (scenario_storage.write
        ((__device_sequence.new (Pointer.striding (Pointer.plain 100) 4) 3).operator_index 1)
        99)
      ((__device_sequence.new
        (Pointer.striding (Pointer.plain 100) 4) 3).begin.advance 1).address = 4 ∧
    (∀ base length i,
      (__device_sequence.new (Pointer.plain base) length).operator_index i
        = ((__device_sequence.new (Pointer.plain base) length).begin.advance i).address) := by
  refine ⟨by decide, by decide, by decide, ?_⟩
  intro base length i
  have hadv : ∀ (n : Nat) (p : Pointer),
      (device_iterator.advance ⟨p⟩ n).address = undress (increment p n) := by
    intro n
    induction n with
    | zero => intro p; simp [device_iterator.advance, device_iterator.address, increment_zero]
    | succ n ih =>
      intro p
      simp [device_iterator.advance, device_iterator.next, ih, increment_increment,
        Nat.add_comm]
  simp [__device_sequence.operator_index, __device_sequence.new, __device_sequence.begin,
    cast_to_modifiable, hadv, increment, undress]

/-! ## The shape recovered from the stored fields -/

/-- C8: for every matrix view with `rows > 0` and `total_length % rows == 0`,
`number_columns()` is defined (it is `size()/rows`) and
`number_rows() * number_columns() == size()`, both as natural numbers and, for a
total length that is a `size_type` value, in `size_type` arithmetic. -/
theorem number_rows_mul_number_columns (m : __device_matrix) (hrows : 0 < m.rows)
    (hdiv : m.length % m.rows = 0) :
    ∃ columns, __device_matrix.number_columns m = some columns ∧
      columns = m.to__device_sequence.size / m.rows ∧
      __device_matrix.number_rows m * columns = m.to__device_sequence.size ∧
      ∀ w, m.to__device_sequence.size < 2 ^ w →
        (__device_matrix.number_rows m * columns) % 2 ^ w = m.to__device_sequence.size := by
  have hmul : m.rows * (m.length / m.rows) = m.length :=
    Nat.mul_div_cancel' (Nat.dvd_of_mod_eq_zero hdiv)
  refine ⟨m.length / m.rows, number_columns_eq m hrows, rfl, hmul, ?_⟩
  intro w hw
  simp only [__device_matrix.number_rows, __device_sequence.size] at hw ⊢
  rw [hmul]
  exact Nat.mod_eq_of_lt hw

/-- Witness of C8: the 3×4 scenario matrix. -/
theorem number_rows_mul_number_columns_witness :
    (0 < scenario_matrix.rows ∧ scenario_matrix.length % scenario_matrix.rows = 0) ∧
    ∃ columns, __device_matrix.number_columns scenario_matrix = some columns ∧
      columns = scenario_matrix.to__device_sequence.size / scenario_matrix.rows ∧
      __device_matrix.number_rows scenario_matrix * columns
        = scenario_matrix.to__device_sequence.size ∧
      ∀ w, scenario_matrix.to__device_sequence.size < 2 ^ w →
        (__device_matrix.number_rows scenario_matrix * columns) % 2 ^ w
          = scenario_matrix.to__device_sequence.size :=
  ⟨⟨by decide, by decide⟩,
    number_rows_mul_number_columns scenario_matrix (by decide) (by decide)⟩

/-- C9, as amended: for a `__device_matrix` constructed from an address, a row
count `rows > 0` and a column count `columns` with `rows * columns < 2^w`, the
stored total length is `rows * columns`, `number_rows()` returns `rows` and
`number_columns()` returns `columns`. -/
theorem shape_recovered (w : Nat) (ptr : Pointer) (rows columns : Nat) (hrows : 0 < rows)
    (hfit : rows * columns < 2 ^ w) :
    (__device_matrix.new w ptr rows columns).to__device_sequence.size = rows * columns ∧
    __device_matrix.number_rows (__device_matrix.new w ptr rows columns) = rows ∧
    __device_matrix.number_columns (__device_matrix.new w ptr rows columns) = some columns := by
  have hmod : rows * columns % 2 ^ w = rows * columns := Nat.mod_eq_of_lt hfit
  have hne : rows ≠ 0 := by omega
  refine ⟨?_, rfl, ?_⟩
  · simp [__device_matrix.new, __device_sequence.new, __device_sequence.size, hmod]
  · simp [__device_matrix.number_columns, __device_matrix.new, __device_sequence.new,
      __device_sequence.size, hmod, hne, Nat.mul_div_cancel_left columns hrows]

/-- Witness of C9: the 3×4 shape with a 64-bit `size_type`. -/
theorem shape_recovered_witness :
    (0 < 3 ∧ 3 * 4 < 2 ^ 64) ∧
    (__device_matrix.new 64 (Pointer.plain 100) 3 4).to__device_sequence.size = 3 * 4 ∧
    __device_matrix.number_rows (__device_matrix.new 64 (Pointer.plain 100) 3 4) = 3 ∧
    __device_matrix.number_columns (__device_matrix.new 64 (Pointer.plain 100) 3 4) = some 4 :=
  ⟨⟨by decide, by decide⟩, shape_recovered 64 (Pointer.plain 100) 3 4 (by decide) (by decide)⟩

/-- C9 fails as stated: with a 64-bit `size_type`, constructing a matrix view
with `rows = 2^63` and `columns = 2` stores the total length `2^64 mod 2^64 = 0`,
and `number_columns()` returns 0, not 2. And constructing one with `rows = 0` and
`columns = 5` leaves `number_columns()` undefined (a division by zero). -/
theorem shape_lost_on_wraparound :
    ((__device_matrix.new 64 (Pointer.plain 100) (2 ^ 63) 2).to__device_sequence.size = 0 ∧
    __device_matrix.number_rows (__device_matrix.new 64 (Pointer.plain 100) (2 ^ 63) 2)
      = 2 ^ 63 ∧
    __device_matrix.number_columns (__device_matrix.new 64 (Pointer.plain 100) (2 ^ 63) 2)
      = some 0 ∧
    __device_matrix.number_columns (__device_matrix.new 64 (Pointer.plain 100) (2 ^ 63) 2)
      ≠ some 2) ∧
    __device_matrix.number_columns (__device_matrix.new 64 (Pointer.plain 100) 0 5) = none := by
  refine ⟨⟨by decide, by decide, by decide, by decide⟩, by decide⟩

/-! ## The page-locked host allocator -/

/-- C10, as amended: `HostAllocator::allocate(n)` fails with `std::bad_alloc` if
and only if the platform allocation call reports non-success, and it returns
normally if and only if the call reports success; the address it then returns is
the one the platform left in the pointer slot (which `allocate` initialised to
`NULL`). That address is non-null exactly when the platform stored a non-null
address: `allocate` itself makes no null check. -/
theorem allocate_outcome (w sizeof_T : Nat) (cudaMallocHost : Nat → Nat → Nat × Nat)
    (n : Nat) :
    (HostAllocator.allocate w sizeof_T cudaMallocHost n
        = Except.error HostAllocator.Exception.bad_alloc ↔
      (cudaMallocHost HostAllocator.NULL ((n * sizeof_T) % 2 ^ w)).1
        ≠ HostAllocator.cudaSuccess) ∧
    ((∃ address, HostAllocator.allocate w sizeof_T cudaMallocHost n = Except.ok address) ↔
      (cudaMallocHost HostAllocator.NULL ((n * sizeof_T) % 2 ^ w)).1
        = HostAllocator.cudaSuccess) ∧
    (∀ address, HostAllocator.allocate w sizeof_T cudaMallocHost n = Except.ok address →
      address = (cudaMallocHost HostAllocator.NULL ((n * sizeof_T) % 2 ^ w)).2) ∧
    (HostAllocator.allocate w sizeof_T cudaMallocHost n = Except.ok HostAllocator.NULL ↔
      (cudaMallocHost HostAllocator.NULL ((n * sizeof_T) % 2 ^ w)).1
          = HostAllocator.cudaSuccess ∧
        (cudaMallocHost HostAllocator.NULL ((n * sizeof_T) % 2 ^ w)).2
          = HostAllocator.NULL) := by
  by_cases h : (cudaMallocHost HostAllocator.NULL ((n * sizeof_T) % 2 ^ w)).1
      = HostAllocator.cudaSuccess
  · simp [HostAllocator.allocate, h, eq_comm]
  · simp [HostAllocator.allocate, h]

/-- Witness of C10: a platform that succeeds and stores the address 4096; the
request for 3 elements of 4 bytes returns 4096. -/
theorem allocate_outcome_witness :
    HostAllocator.allocate 64 4 (fun _ _ => (HostAllocator.cudaSuccess, 4096)) 3
        = Except.ok 4096 ∧
    4096 = ((fun (_ _ : Nat) => (HostAllocator.cudaSuccess, 4096))
      HostAllocator.NULL ((3 * 4) % 2 ^ 64)).2 :=
  ⟨rfl,
    (allocate_outcome 64 4 (fun _ _ => (HostAllocator.cudaSuccess, 4096)) 3).2.2.1 4096 rfl⟩

/-- C10 fails as stated: with a platform that reports success for a request of
zero bytes and leaves the pointer slot as it found it, `allocate(0)` returns
normally and the address returned is `NULL`. -/
theorem allocate_returns_null :
    HostAllocator.allocate 64 4
        (fun slot bytes =>
          if bytes = 0 then (HostAllocator.cudaSuccess, slot)
          else (HostAllocator.cudaSuccess, 4096)) 0
      = Except.ok HostAllocator.NULL := by
  rfl

/-! ## Reverse traversal -/

theorem decrement_increment (p : Pointer) (a b : Nat) (h : b ≤ a) :
    decrement (increment p a) b = increment p (a - b) := by
  induction p generalizing a b with
  | plain x =>
    simp only [increment, decrement, Pointer.plain.injEq]
    omega
  | striding q s ih =>
    simp only [increment, decrement]
    rw [ih (a * s) (b * s) (Nat.mul_le_mul_right s h), Nat.sub_mul]

/-- A reverse traversal from the base position `k` of an address with a nonzero
raw step down to its first position visits the positions `k-1, ..., 0`. -/
theorem traverse_reverse_positions (p : Pointer) (hs : 0 < raw_step p) :
    ∀ (k fuel : Nat), k ≤ fuel →
      traverse_reverse fuel ⟨⟨increment p k⟩⟩ ⟨⟨p⟩⟩
        = some ((List.range k).map (fun i => undress p + i * raw_step p)).reverse := by
  intro k
  induction k with
  | zero =>
    intro fuel _
    unfold traverse_reverse
    simp [reverse_device_iterator.ne, device_iterator.ne, increment_zero]
  | succ k ih =>
    intro fuel hfuel
    obtain ⟨f, rfl⟩ : ∃ f, fuel = f + 1 := ⟨fuel - 1, by omega⟩
    have hne : undress p + (k + 1) * raw_step p ≠ undress p := by
      have : 0 < (k + 1) * raw_step p := Nat.mul_pos (by omega) hs
      omega
    have hprev : decrement (increment p (k + 1)) 1 = increment p k :=
      decrement_increment p (k + 1) 1 (by omega)
    unfold traverse_reverse
    simp [reverse_device_iterator.ne, device_iterator.ne, undress_increment, hne,
      reverse_device_iterator.next, reverse_device_iterator.address, device_iterator.prev,
      device_iterator.address, hprev, ih f (by omega), List.range_succ]

/-- The addresses visited in reverse through a view whose address strategy has a
nonzero raw step. -/
theorem reverse_addresses_eq (s : __device_sequence) (fuel : Nat) (hs : 0 < raw_step s.ptr)
    (hfuel : s.length ≤ fuel) :
    __device_sequence.reverse_addresses fuel s
      = some ((List.range s.length).map
          (fun i => undress s.ptr + i * raw_step s.ptr)).reverse := by
  simpa [__device_sequence.reverse_addresses, __device_sequence.rbegin,
    __device_sequence.rend, __device_sequence.begin, __device_sequence.end_,
    __device_sequence.size, cast_to_modifiable]
    using traverse_reverse_positions s.ptr hs s.length fuel hfuel

/-- A view whose address strategy has raw step zero has `rbegin() == rend()`: the
reverse traversal visits nothing. -/
theorem reverse_addresses_zero_step (s : __device_sequence) (fuel : Nat)
    (hs : raw_step s.ptr = 0) : __device_sequence.reverse_addresses fuel s = some [] := by
  unfold __device_sequence.reverse_addresses traverse_reverse
  simp [reverse_device_iterator.ne, device_iterator.ne, __device_sequence.rbegin,
    __device_sequence.rend, __device_sequence.begin, __device_sequence.end_,
    cast_to_modifiable, undress_increment, hs]

/-- C11: for every non-empty sequence view, `rbegin()` wraps `end()` and
dereferences to the same raw address as `end()-1`, `rend()` wraps `begin()`, and
the traversal from `rbegin()` to `rend()` returns and visits exactly the
addresses of the forward traversal from `begin()` to `end()`, in the opposite
order. The address `rbegin()` dereferences to is that of the last position,
`size()-1`, of the view. -/
theorem reverse_traversal (s : __device_sequence) (fuel : Nat) (hnonempty : 0 < s.size)
    (hfuel : s.size ≤ fuel) :
    (__device_sequence.rbegin s).base = __device_sequence.end_ s ∧
    (__device_sequence.rbegin s).address = ((__device_sequence.end_ s).minus 1).address ∧
    (__device_sequence.rbegin s).address = undress (increment s.ptr (s.size - 1)) ∧
    (__device_sequence.rend s).base = __device_sequence.begin s ∧
    ∃ forward, __device_sequence.addresses fuel s = some forward ∧
      __device_sequence.reverse_addresses fuel s = some forward.reverse := by
  refine ⟨rfl, rfl, ?_, rfl, ?_⟩
  · simp only [__device_sequence.rbegin, reverse_device_iterator.address,
      device_iterator.prev, device_iterator.address, __device_sequence.end_]
    rw [decrement_increment s.ptr s.size 1 hnonempty]
  by_cases h0 : raw_step s.ptr = 0
  · exact ⟨[], addresses_zero_step s fuel h0, reverse_addresses_zero_step s fuel h0⟩
  · exact ⟨_, addresses_eq s fuel (Nat.pos_of_ne_zero h0) hfuel,
      reverse_addresses_eq s fuel (Nat.pos_of_ne_zero h0) hfuel⟩

/-- Witness of C11: the view of three elements over the striding address with
base 100 and stride 4; the reverse traversal visits 108, 104, 100. -/
theorem reverse_traversal_witness :
    (0 < (__device_sequence.new (Pointer.striding (Pointer.plain 100) 4) 3).size ∧
      (__device_sequence.new (Pointer.striding (Pointer.plain 100) 4) 3).size ≤ 3) ∧
    ((__device_sequence.rbegin
        (__device_sequence.new (Pointer.striding (Pointer.plain 100) 4) 3)).base
      = __device_sequence.end_
          (__device_sequence.new (Pointer.striding (Pointer.plain 100) 4) 3) ∧
    (__device_sequence.rbegin
        (__device_sequence.new (Pointer.striding (Pointer.plain 100) 4) 3)).address
      = ((__device_sequence.end_
          (__device_sequence.new (Pointer.striding (Pointer.plain 100) 4) 3)).minus 1).address ∧
    (__device_sequence.rbegin
        (__device_sequence.new (Pointer.striding (Pointer.plain 100) 4) 3)).address
      = undress (increment
          (__device_sequence.new (Pointer.striding (Pointer.plain 100) 4) 3).ptr
          ((__device_sequence.new (Pointer.striding (Pointer.plain 100) 4) 3).size - 1)) ∧
    (__device_sequence.rend
        (__device_sequence.new (Pointer.striding (Pointer.plain 100) 4) 3)).base
      = __device_sequence.begin
          (__device_sequence.new (Pointer.striding (Pointer.plain 100) 4) 3) ∧
    ∃ forward,
      __device_sequence.addresses 3
          (__device_sequence.new (Pointer.striding (Pointer.plain 100) 4) 3) = some forward ∧
      __device_sequence.reverse_addresses 3
          (__device_sequence.new (Pointer.striding (Pointer.plain 100) 4) 3)
        = some forward.reverse) ∧
    __device_sequence.reverse_addresses 3
        (__device_sequence.new (Pointer.striding (Pointer.plain 100) 4) 3)
      = some [108, 104, 100] :=
  ⟨⟨by decide, by decide⟩,
    reverse_traversal (__device_sequence.new (Pointer.striding (Pointer.plain 100) 4) 3) 3
      (by decide) (by decide),
    by decide⟩

/-! ## Release of page-locked memory -/

/-- C12: `HostAllocator::deallocate(ptr, n)` performs no platform release call
when `ptr` is the null address, and exactly one platform release call, on `ptr`,
when `ptr` is non-null; the calls made do not depend on `n`. -/
theorem deallocate_calls (released : List Nat) (ptr n : Nat) :
    HostAllocator.deallocate released HostAllocator.NULL n = released ∧
    (ptr ≠ HostAllocator.NULL →
      HostAllocator.deallocate released ptr n = released ++ [ptr]) ∧
    (∀ n', HostAllocator.deallocate released ptr n' = HostAllocator.deallocate released ptr n) := by
  refine ⟨by simp [HostAllocator.deallocate], ?_, fun _ => rfl⟩
  intro h
  simp [HostAllocator.deallocate, h]

/-- Witness of C12: releasing the address 4096 after the address 512 was
released. -/
theorem deallocate_calls_witness :
    (4096 ≠ HostAllocator.NULL) ∧
    HostAllocator.deallocate [512] HostAllocator.NULL 3 = [512] ∧
    HostAllocator.deallocate [512] 4096 3 = [512] ++ [4096] ∧
    (∀ n', HostAllocator.deallocate [512] 4096 n' = HostAllocator.deallocate [512] 4096 3) :=
  ⟨by decide, (deallocate_calls [512] 4096 3).1, (deallocate_calls [512] 4096 3).2.1 (by decide),
    (deallocate_calls [512] 4096 3).2.2⟩

/-! ## The matrix invariant under `swap` -/

/-- C13, evaluated on the code: a 2×3 matrix view `a` and a 3×5 matrix view `b`
both satisfy `total_length % rows == 0`. After `a.swap(b)` under the host
field-exchange strategy `a` holds `b`'s address and the total length 15 but still
`rows == 2`: its invariant is broken (`15 % 2 == 1`), `number_rows()` is 2 (not
3) and `number_columns()` is 7 (not 5); `b` holds the total length 6 with
`rows == 3` and reports 3 rows of 2 columns (not 2 rows of 3). -/
theorem matrix_swap_breaks_invariant :
    ((__device_matrix.new 64 (Pointer.plain 100) 2 3).length
        % (__device_matrix.new 64 (Pointer.plain 100) 2 3).rows = 0 ∧
      (__device_matrix.new 64 (Pointer.plain 200) 3 5).length
        % (__device_matrix.new 64 (Pointer.plain 200) 3 5).rows = 0) ∧
    ((__device_matrix.swap_host (__device_matrix.new 64 (Pointer.plain 100) 2 3)
        (__device_matrix.new 64 (Pointer.plain 200) 3 5)).1.length
      % (__device_matrix.swap_host (__device_matrix.new 64 (Pointer.plain 100) 2 3)
        (__device_matrix.new 64 (Pointer.plain 200) 3 5)).1.rows = 1) ∧
    __device_matrix.number_rows
      (__device_matrix.swap_host (__device_matrix.new 64 (Pointer.plain 100) 2 3)
        (__device_matrix.new 64 (Pointer.plain 200) 3 5)).1 = 2 ∧
    __device_matrix.number_columns
      (__device_matrix.swap_host (__device_matrix.new 64 (Pointer.plain 100) 2 3)
        (__device_matrix.new 64 (Pointer.plain 200) 3 5)).1 = some 7 ∧
    __device_matrix.number_rows
      (__device_matrix.swap_host (__device_matrix.new 64 (Pointer.plain 100) 2 3)
        (__device_matrix.new 64 (Pointer.plain 200) 3 5)).2 = 3 ∧
    __device_matrix.number_columns
      (__device_matrix.swap_host (__device_matrix.new 64 (Pointer.plain 100) 2 3)
        (__device_matrix.new 64 (Pointer.plain 200) 3 5)).2 = some 2 := by
  refine ⟨⟨by decide, by decide⟩, by decide, by decide, by decide, by decide, by decide⟩

/-! ## Contiguous iteration against generic iteration -/

/-- A traversal with contiguous iterators is the generic traversal over the plain
addresses of the same raw pointers. -/
theorem traverse_contiguous_eq (fuel : Nat) (x z : Nat) :
    traverse_contiguous fuel ⟨x⟩ ⟨z⟩ = traverse fuel ⟨Pointer.plain x⟩ ⟨Pointer.plain z⟩ := by
  induction fuel generalizing x with
  | zero =>
    unfold traverse_contiguous traverse
    simp [device_contiguous_iterator.ne, device_iterator.ne, undress]
  | succ f ih =>
    unfold traverse_contiguous traverse
    simp [device_contiguous_iterator.ne, device_iterator.ne, undress,
      device_contiguous_iterator.next, device_iterator.next, increment,
      device_contiguous_iterator.address, device_iterator.address, ih]

/-- The element-wise loop over contiguous iterators is the generic element-wise
loop over the plain addresses of the same raw pointers. -/
theorem fixed_swap_loop_eq {α : Type} (fuel : Nat) (mem : Memory α) (x y z : Nat) :
    __device_fixed_sequence.swap_loop fuel mem ⟨x⟩ ⟨y⟩ ⟨z⟩
      = __device_sequence.swap_loop fuel mem ⟨Pointer.plain x⟩ ⟨Pointer.plain y⟩
          ⟨Pointer.plain z⟩ := by
  induction fuel generalizing mem x y with
  | zero =>
    unfold __device_fixed_sequence.swap_loop __device_sequence.swap_loop
    simp [device_contiguous_iterator.ne, device_iterator.ne, undress]
  | succ f ih =>
    unfold __device_fixed_sequence.swap_loop __device_sequence.swap_loop
    simp [device_contiguous_iterator.ne, device_iterator.ne, undress,
      device_contiguous_iterator.next, device_iterator.next, increment,
      device_contiguous_iterator.address, device_iterator.address, ih]

/-- A contiguous traversal over `n` elements from the raw address `x` visits
`x, x+1, ..., x+n-1`. -/
theorem traverse_contiguous_range (fuel x n : Nat) (hfuel : n ≤ fuel) :
    traverse_contiguous fuel ⟨x⟩ ⟨x + n⟩ = some ((List.range n).map (fun i => x + i)) := by
  rw [traverse_contiguous_eq]
  have h := addresses_eq (__device_sequence.new (Pointer.plain x) n) fuel
    (by simp [__device_sequence.new, raw_step]) hfuel
  simpa [__device_sequence.addresses, __device_sequence.begin, __device_sequence.end_,
    __device_sequence.size, __device_sequence.new, cast_to_modifiable, increment, undress,
    raw_step] using h

/-- The elements observed through a fixed-length view. -/
theorem fixed_elements_eq {α : Type} {N : Nat} (mem : Memory α)
    (s : __device_fixed_sequence N) (fuel : Nat) (hfuel : N ≤ fuel) :
    __device_fixed_sequence.elements fuel mem s
      = some ((List.range N).map (fun i => mem (undress s.ptr + i))) := by
  simp [__device_fixed_sequence.elements, __device_fixed_sequence.begin,
    __device_fixed_sequence.end_, traverse_contiguous_range fuel (undress s.ptr) N hfuel,
    Function.comp_def]

/-! ## The swap law of fixed-length views -/

/-- C14: the swap law of `__device_fixed_sequence<T,N>::swap` for two views `a`
and `b` over non-overlapping storage. Under the element-wise strategy the loop
over exactly `N` positions returns, and afterwards the `N` elements observed
through `a` are the `N` elements observed through `b` before and vice versa.
Under the field-exchange strategy (exchange of `ptr`) the same holds. `size()`
is `N` for both views before and after. -/
theorem fixed_swap_law {α : Type} {N : Nat} (mem : Memory α) (a b : __device_fixed_sequence N)
    (fuel : Nat) (hfuel : N ≤ fuel)
    (hdisj : ∀ i j, i < N → j < N → undress a.ptr + i ≠ undress b.ptr + j) :
    (∃ mem' ea eb, __device_fixed_sequence.swap_device fuel mem a b = some mem' ∧
        __device_fixed_sequence.elements fuel mem a = some ea ∧
        __device_fixed_sequence.elements fuel mem b = some eb ∧
        __device_fixed_sequence.elements fuel mem' a = some eb ∧
        __device_fixed_sequence.elements fuel mem' b = some ea ∧
        ea.length = N ∧ eb.length = N) ∧
    (∃ ea eb, __device_fixed_sequence.elements fuel mem a = some ea ∧
        __device_fixed_sequence.elements fuel mem b = some eb ∧
        __device_fixed_sequence.elements fuel mem (__device_fixed_sequence.swap_host a b).1
          = some eb ∧
        __device_fixed_sequence.elements fuel mem (__device_fixed_sequence.swap_host a b).2
          = some ea ∧
        ea.length = N ∧ eb.length = N) ∧
    (a.size = N ∧ b.size = N ∧ (__device_fixed_sequence.swap_host a b).1.size = N ∧
      (__device_fixed_sequence.swap_host a b).2.size = N) := by
  refine ⟨?_, ?_, rfl, rfl, rfl, rfl⟩
  · obtain ⟨mem', hrun, hswapped, -⟩ :=
      swap_loop_spec (Pointer.plain (undress a.ptr)) (Pointer.plain (undress b.ptr))
        (by simp [raw_step]) (by simp [raw_step]) N ⟨Pointer.plain (undress a.ptr + N)⟩
        (by simp [undress, raw_step])
        (fun i j hi hj => by simpa [undress, raw_step] using hdisj i j hi hj)
        N 0 fuel mem (by omega) hfuel
    simp only [increment, Nat.add_zero, undress, raw_step, Nat.mul_one] at hrun hswapped
    refine ⟨mem', _, _, ?_, fixed_elements_eq mem a fuel hfuel,
      fixed_elements_eq mem b fuel hfuel, ?_, ?_, by simp, by simp⟩
    · simpa [__device_fixed_sequence.swap_device, __device_fixed_sequence.begin,
        __device_fixed_sequence.end_, fixed_swap_loop_eq] using hrun
    · rw [fixed_elements_eq mem' a fuel hfuel]
      congr 1
      apply List.map_congr_left
      intro i hi
      exact (hswapped i (Nat.zero_le i) (List.mem_range.mp hi)).1
    · rw [fixed_elements_eq mem' b fuel hfuel]
      congr 1
      apply List.map_congr_left
      intro i hi
      exact (hswapped i (Nat.zero_le i) (List.mem_range.mp hi)).2
  · exact ⟨_, _, fixed_elements_eq mem a fuel hfuel, fixed_elements_eq mem b fuel hfuel,
      fixed_elements_eq mem _ fuel hfuel, fixed_elements_eq mem _ fuel hfuel, by simp, by simp⟩

/-- Witness of C14: two views of `N = 2` elements at the raw addresses 0, 1 and
10, 11, over storage that holds its own address as value. -/
theorem fixed_swap_law_witness :
    (2 ≤ 2 ∧ ∀ i j, i < 2 → j < 2 →
      undress (__device_fixed_sequence.new 2 (Pointer.plain 0)).ptr + i
        ≠ undress (__device_fixed_sequence.new 2 (Pointer.plain 10)).ptr + j) ∧
    (∃ mem' ea eb,
        __device_fixed_sequence.swap_device 2 (fun x : Nat => x)
          (__device_fixed_sequence.new 2 (Pointer.plain 0))
          (__device_fixed_sequence.new 2 (Pointer.plain 10)) = some mem' ∧
        __device_fixed_sequence.elements 2 (fun x : Nat => x)
          (__device_fixed_sequence.new 2 (Pointer.plain 0)) = some ea ∧
        __device_fixed_sequence.elements 2 (fun x : Nat => x)
          (__device_fixed_sequence.new 2 (Pointer.plain 10)) = some eb ∧
        __device_fixed_sequence.elements 2 mem'
          (__device_fixed_sequence.new 2 (Pointer.plain 0)) = some eb ∧
        __device_fixed_sequence.elements 2 mem'
          (__device_fixed_sequence.new 2 (Pointer.plain 10)) = some ea ∧
        ea.length = 2 ∧ eb.length = 2) ∧
    (__device_fixed_sequence.swap_device 2 (fun x : Nat => x)
        (__device_fixed_sequence.new 2 (Pointer.plain 0))
        (__device_fixed_sequence.new 2 (Pointer.plain 10))).bind
      (fun mem' => __device_fixed_sequence.elements 2 mem'
        (__device_fixed_sequence.new 2 (Pointer.plain 0))) = some [10, 11] :=
  have hdisj : ∀ i j, i < 2 → j < 2 →
      undress (__device_fixed_sequence.new 2 (Pointer.plain 0)).ptr + i
        ≠ undress (__device_fixed_sequence.new 2 (Pointer.plain 10)).ptr + j := by
    intro i j hi hj
    simp only [__device_fixed_sequence.new, undress]
    omega
  ⟨⟨Nat.le_refl 2, hdisj⟩,
    (fixed_swap_law (fun x : Nat => x) (__device_fixed_sequence.new 2 (Pointer.plain 0))
      (__device_fixed_sequence.new 2 (Pointer.plain 10)) 2 (Nat.le_refl 2) hdisj).1,
    by decide⟩

/-! ## The byte count of an allocation request -/

/-- C15, evaluated on the code: with a 64-bit `size_type` and `sizeof(T) == 4`,
the element count `n = 2^62` is within `max_size()`, but the byte count
`n*sizeof(T)` passed to the platform is `2^64 mod 2^64 = 0`, not the product
`2^64`. The platform of this evaluation reports success and returns the byte
count it was asked for in place of an address. -/
theorem allocate_request_wraps :
    2 ^ 62 ≤ HostAllocator.max_size 64 ∧
    HostAllocator.allocate 64 4 (fun _ bytes => (HostAllocator.cudaSuccess, bytes)) (2 ^ 62)
      = Except.ok 0 ∧
    2 ^ 62 * 4 ≠ 0 := by
  refine ⟨by decide, rfl, by decide⟩

/-! ## Contiguous sequence views -/

/-- C16: for every `__device_contiguous_sequence` over a plain address, the
contiguous `begin()` and `end()` denote the same raw addresses as the generic
`__device_sequence` `begin()` and `end()` of the same view, namely the stripped
address and the stripped address plus `size()`, and both traversals return and
visit the same `size()` addresses in the same order. -/
theorem contiguous_begin_end (s : __device_contiguous_sequence) (a fuel : Nat)
    (hptr : s.ptr = Pointer.plain a) (hfuel : s.to__device_sequence.size ≤ fuel) :
    (__device_contiguous_sequence.begin s).address
        = (__device_sequence.begin s.to__device_sequence).address ∧
    (__device_contiguous_sequence.begin s).address = a ∧
    (__device_contiguous_sequence.end_ s).address
        = (__device_sequence.end_ s.to__device_sequence).address ∧
    (__device_contiguous_sequence.end_ s).address = a + s.to__device_sequence.size ∧
    ∃ visited, __device_contiguous_sequence.addresses fuel s = some visited ∧
      __device_sequence.addresses fuel s.to__device_sequence = some visited ∧
      visited = (List.range s.to__device_sequence.size).map (fun i => a + i) ∧
      visited.length = s.to__device_sequence.size := by
  have hgen := addresses_eq s.to__device_sequence fuel (by simp [hptr, raw_step]) hfuel
  have hcon := traverse_contiguous_range fuel a s.to__device_sequence.size hfuel
  refine ⟨?_, ?_, ?_, ?_, (List.range s.to__device_sequence.size).map (fun i => a + i),
    ?_, ?_, rfl, by simp⟩
  · simp [__device_contiguous_sequence.begin, __device_sequence.begin,
      device_contiguous_iterator.address, device_iterator.address, cast_to_modifiable]
  · simp [__device_contiguous_sequence.begin, device_contiguous_iterator.address, hptr,
      undress]
  · simp [__device_contiguous_sequence.end_, __device_sequence.end_,
      device_contiguous_iterator.address, device_iterator.address, hptr, increment, undress]
  · simp [__device_contiguous_sequence.end_, device_contiguous_iterator.address, hptr,
      undress]
  · simpa [__device_contiguous_sequence.addresses, __device_contiguous_sequence.begin,
      __device_contiguous_sequence.end_, hptr, undress] using hcon
  · simpa [hptr, undress, raw_step, __device_sequence.size] using hgen

/-- Witness of C16: the contiguous view of four elements at raw address 100. -/
theorem contiguous_begin_end_witness :
    ((__device_contiguous_sequence.new (Pointer.plain 100) 4).ptr = Pointer.plain 100 ∧
      (__device_contiguous_sequence.new (Pointer.plain 100) 4).to__device_sequence.size ≤ 4) ∧
    ((__device_contiguous_sequence.begin
        (__device_contiguous_sequence.new (Pointer.plain 100) 4)).address
      = (__device_sequence.begin
        (__device_contiguous_sequence.new (Pointer.plain 100) 4).to__device_sequence).address ∧
    (__device_contiguous_sequence.begin
        (__device_contiguous_sequence.new (Pointer.plain 100) 4)).address = 100 ∧
    (__device_contiguous_sequence.end_
        (__device_contiguous_sequence.new (Pointer.plain 100) 4)).address
      = (__device_sequence.end_
        (__device_contiguous_sequence.new (Pointer.plain 100) 4).to__device_sequence).address ∧
    (__device_contiguous_sequence.end_
        (__device_contiguous_sequence.new (Pointer.plain 100) 4)).address
      = 100 + (__device_contiguous_sequence.new (Pointer.plain 100) 4).to__device_sequence.size ∧
    ∃ visited,
      __device_contiguous_sequence.addresses 4
          (__device_contiguous_sequence.new (Pointer.plain 100) 4) = some visited ∧
      __device_sequence.addresses 4
          (__device_contiguous_sequence.new (Pointer.plain 100) 4).to__device_sequence
        = some visited ∧
      visited
        = (List.range
            (__device_contiguous_sequence.new (Pointer.plain 100) 4).to__device_sequence.size).map
          (fun i => 100 + i) ∧
      visited.length
        = (__device_contiguous_sequence.new (Pointer.plain 100) 4).to__device_sequence.size) :=
  ⟨⟨rfl, by decide⟩,
    contiguous_begin_end (__device_contiguous_sequence.new (Pointer.plain 100) 4) 100 4 rfl
      (by decide)⟩

/-! ## Direct access against row access -/

/-- C17: for every `__device_contiguous_row_matrix` with `rows > 0` (its total
length being a `size_type` value) and every row index `row < number_rows()`, the
contiguous-row `get_row(row)` has the same start address and the same length as
the base `__device_matrix::get_row(row)`; and when each row is contiguous, as the
class assumes (consecutive elements of the address strategy are consecutive raw
addresses), `at(row, column)` denotes the same raw address as
`get_row(row)[column]` for every `column < number_columns()`. -/
theorem at_agrees_with_get_row (w : Nat) (m : __device_contiguous_row_matrix)
    (hsize : m.length < 2 ^ w) (hrows : 0 < m.rows) :
    ∃ columns, __device_matrix.number_columns m.to__device_matrix = some columns ∧
      ∀ row, row < __device_matrix.number_rows m.to__device_matrix →
        ∃ view base_view,
          __device_contiguous_row_matrix.get_row w m row = some view ∧
          __device_matrix.get_row w m.to__device_matrix row = some base_view ∧
          (__device_contiguous_sequence.begin view).address
            = (__device_sequence.begin base_view).address ∧
          view.to__device_sequence.size = base_view.size ∧
          (raw_step m.ptr = 1 → ∀ column, column < columns →
            __device_contiguous_row_matrix.at_ w m row column
              = some (view.to__device_sequence.operator_index column)) := by
  have hcols := number_columns_eq m.to__device_matrix hrows
  refine ⟨m.length / m.rows, hcols, ?_⟩
  intro row hrow
  have hle := (rows_mul_columns_le m.to__device_matrix _ hcols).2
  have hmul : row * (m.length / m.rows) ≤ m.rows * (m.length / m.rows) :=
    Nat.mul_le_mul_right _ (Nat.le_of_lt hrow)
  have hmod : row * (m.length / m.rows) % 2 ^ w = row * (m.length / m.rows) :=
    Nat.mod_eq_of_lt (by omega)
  refine ⟨__device_contiguous_sequence.new
      (Pointer.plain (undress (increment m.ptr (row * (m.length / m.rows)))))
      (m.length / m.rows),
    __device_sequence.new (increment m.ptr (row * (m.length / m.rows))) (m.length / m.rows),
    ?_, ?_, rfl, rfl, ?_⟩
  · simp [__device_contiguous_row_matrix.get_row, hcols, hmod]
  · simp [__device_matrix.get_row, hcols, hmod]
  · intro hcontiguous column hcol
    have hlt := flattened_offset_lt m.to__device_matrix _ row column hcols hrow hcol
    have hmod2 : (row * (m.length / m.rows) + column) % 2 ^ w
        = row * (m.length / m.rows) + column := Nat.mod_eq_of_lt (by omega)
    simp [__device_contiguous_row_matrix.at_, hcols, hmod, hmod2,
      __device_sequence.operator_index, __device_contiguous_sequence.new,
      __device_sequence.new, undress, undress_increment, hcontiguous, Nat.add_assoc]

/-- Witness of C17: the 3×4 scenario matrix, row 1 and column 2; both accesses
denote raw address 106. -/
theorem at_agrees_with_get_row_witness :
    (scenario_row_matrix.length < 2 ^ 64 ∧ 0 < scenario_row_matrix.rows) ∧
    (∃ columns,
      __device_matrix.number_columns scenario_row_matrix.to__device_matrix = some columns ∧
      ∀ row, row < __device_matrix.number_rows scenario_row_matrix.to__device_matrix →
        ∃ view base_view,
          __device_contiguous_row_matrix.get_row 64 scenario_row_matrix row = some view ∧
          __device_matrix.get_row 64 scenario_row_matrix.to__device_matrix row
            = some base_view ∧
          (__device_contiguous_sequence.begin view).address
            = (__device_sequence.begin base_view).address ∧
          view.to__device_sequence.size = base_view.size ∧
          (raw_step scenario_row_matrix.ptr = 1 → ∀ column, column < columns →
            __device_contiguous_row_matrix.at_ 64 scenario_row_matrix row column
              = some (view.to__device_sequence.operator_index column))) ∧
    __device_contiguous_row_matrix.at_ 64 scenario_row_matrix 1 2 = some 106 ∧
    (__device_contiguous_row_matrix.get_row 64 scenario_row_matrix 1).map
      (fun view => view.to__device_sequence.operator_index 2) = some 106 :=
  ⟨⟨by decide, by decide⟩,
    at_agrees_with_get_row 64 scenario_row_matrix (by decide) (by decide),
    by decide, by decide⟩

/-! ## The flattened offset map -/

/-- C18: for a matrix view constructed with `rows > 0`, `columns > 0` and
`rows*columns < 2^w`, the shape is recovered (`number_rows() == rows`,
`number_columns() == columns`, `size() == rows*columns`) and the flattened offset
`r*number_columns() + c`, the position that `get_row` (with `c = 0`) and `at`
advance the parent's address by, is a bijection from the pairs `r < number_rows()`,
`c < number_columns()` onto the positions `i < size()`: every offset is below
`size()`, distinct pairs (in particular elements of distinct rows) have distinct
offsets, and every position is the offset of some pair. -/
theorem flattened_offset_bijection (w : Nat) (ptr : Pointer) (rows columns : Nat)
    (hrows : 0 < rows) (hcolumns : 0 < columns) (hfit : rows * columns < 2 ^ w) :
    __device_matrix.number_rows
        (__device_contiguous_row_matrix.new w ptr rows columns).to__device_matrix = rows ∧
    __device_matrix.number_columns
        (__device_contiguous_row_matrix.new w ptr rows columns).to__device_matrix
      = some columns ∧
    (__device_contiguous_row_matrix.new w ptr rows columns).to__device_sequence.size
      = rows * columns ∧
    (∀ r c, r < rows → c < columns →
      __device_contiguous_row_matrix.at_ w
          (__device_contiguous_row_matrix.new w ptr rows columns) r c
        = some (undress (increment ptr (r * columns + c))) ∧
      (__device_matrix.get_row w
          (__device_contiguous_row_matrix.new w ptr rows columns).to__device_matrix r).map
          (fun view => view.ptr)
        = some (increment ptr (r * columns + 0)) ∧
      r * columns + c < rows * columns) ∧
    (∀ r c r' c', r < rows → c < columns → r' < rows → c' < columns →
      r * columns + c = r' * columns + c' → r = r' ∧ c = c') ∧
    (∀ i, i < rows * columns → ∃ r c, r < rows ∧ c < columns ∧ r * columns + c = i) := by
  have hmod : rows * columns % 2 ^ w = rows * columns := Nat.mod_eq_of_lt hfit
  have hne : rows ≠ 0 := by omega
  have hcols : __device_matrix.number_columns
      (__device_contiguous_row_matrix.new w ptr rows columns).to__device_matrix
        = some columns := by
    simp [__device_matrix.number_columns, __device_contiguous_row_matrix.new,
      __device_matrix.new, __device_sequence.new, __device_sequence.size, hmod, hne,
      Nat.mul_div_cancel_left columns hrows]
  have hbound : ∀ r c, r < rows → c < columns → r * columns + c < rows * columns := by
    intro r c hr hc
    have h1 : (r + 1) * columns ≤ rows * columns := Nat.mul_le_mul_right columns (by omega)
    have h2 : (r + 1) * columns = r * columns + columns := by ring
    omega
  refine ⟨rfl, hcols, ?_, ?_, ?_, ?_⟩
  · simp [__device_contiguous_row_matrix.new, __device_matrix.new, __device_sequence.new,
      __device_sequence.size, hmod]
  · intro r c hr hc
    have hb := hbound r c hr hc
    have hmod1 : r * columns % 2 ^ w = r * columns := Nat.mod_eq_of_lt (by omega)
    have hmod2 : (r * columns + c) % 2 ^ w = r * columns + c := Nat.mod_eq_of_lt (by omega)
    refine ⟨?_, ?_, hb⟩
    · simp only [__device_contiguous_row_matrix.at_, hcols, Option.map_some', hmod1, hmod2]
      rfl
    · simp only [__device_matrix.get_row, hcols, Option.map_some', hmod1, Nat.add_zero]
      rfl
  · intro r c r' c' _ hc _ hc' h
    have hr : r = r' := by
      have h1 : (r * columns + c) / columns = r := by
        rw [Nat.add_comm, Nat.add_mul_div_right _ _ hcolumns, Nat.div_eq_of_lt hc,
          Nat.zero_add]
      have h2 : (r' * columns + c') / columns = r' := by
        rw [Nat.add_comm, Nat.add_mul_div_right _ _ hcolumns, Nat.div_eq_of_lt hc',
          Nat.zero_add]
      rw [← h1, ← h2, h]
    subst hr
    exact ⟨rfl, by omega⟩
  · intro i hi
    refine ⟨i / columns, i % columns, ?_, Nat.mod_lt i hcolumns, ?_⟩
    · exact Nat.div_lt_of_lt_mul (by rw [Nat.mul_comm]; exact hi)
    · rw [Nat.mul_comm]
      exact Nat.div_add_mod i columns

/-- Witness of C18: the 3×4 shape with a 64-bit `size_type` over raw address
100. -/
theorem flattened_offset_bijection_witness :
    (0 < 3 ∧ 0 < 4 ∧ 3 * 4 < 2 ^ 64) ∧
    (∀ r c r' c', r < 3 → c < 4 → r' < 3 → c' < 4 →
      r * 4 + c = r' * 4 + c' → r = r' ∧ c = c') ∧
    (∀ i, i < 3 * 4 → ∃ r c, r < 3 ∧ c < 4 ∧ r * 4 + c = i) ∧
    __device_contiguous_row_matrix.at_ 64
        (__device_contiguous_row_matrix.new 64 (Pointer.plain 100) 3 4) 2 3
      = some (undress (increment (Pointer.plain 100) (2 * 4 + 3))) :=
  ⟨⟨by decide, by decide, by decide⟩,
    (flattened_offset_bijection 64 (Pointer.plain 100) 3 4 (by decide) (by decide)
      (by decide)).2.2.2.2.1,
    (flattened_offset_bijection 64 (Pointer.plain 100) 3 4 (by decide) (by decide)
      (by decide)).2.2.2.2.2,
    ((flattened_offset_bijection 64 (Pointer.plain 100) 3 4 (by decide) (by decide)
      (by decide)).2.2.2.1 2 3 (by decide) (by decide)).1⟩

/-! ## Swapping twice -/

/-- The element-wise loop started at position `k`, for a first address strategy
with a nonzero raw step and a second one whose first `n` positions are distinct
raw addresses: the loop returns, exchanges the elements at the positions
`k, ..., n-1` pairwise and leaves every other address alone. -/
theorem swap_loop_exchange {α : Type} (pa pb : Pointer) (ha : 0 < raw_step pa)
    (n : Nat) (last : device_iterator)
    (hlast : undress last.ptr = undress pa + n * raw_step pa)
    (hdistinct : ∀ i j, i < n → j < n → i ≠ j →
      undress pb + i * raw_step pb ≠ undress pb + j * raw_step pb)
    (hdisj : ∀ i j, i < n → j < n →
      undress pa + i * raw_step pa ≠ undress pb + j * raw_step pb) :
    ∀ (d k fuel : Nat) (mem : Memory α), k + d = n → d ≤ fuel →
      ∃ mem', __device_sequence.swap_loop fuel mem ⟨increment pa k⟩ ⟨increment pb k⟩ last
          = some mem' ∧
        (∀ i, k ≤ i → i < n →
          mem' (undress pa + i * raw_step pa) = mem (undress pb + i * raw_step pb) ∧
          mem' (undress pb + i * raw_step pb) = mem (undress pa + i * raw_step pa)) ∧
        (∀ x, (∀ i, k ≤ i → i < n →
          x ≠ undress pa + i * raw_step pa ∧ x ≠ undress pb + i * raw_step pb) →
          mem' x = mem x) := by
  intro d
  induction d with
  | zero =>
    intro k fuel mem hk _
    refine ⟨mem, ?_, ?_, ?_⟩
    · unfold __device_sequence.swap_loop
      have : k = n := by omega
      simp [device_iterator.ne, undress_increment, hlast, this]
    · intro i h1 h2; omega
    · intro x _; rfl
  | succ d ih =>
    intro k fuel mem hk hfuel
    obtain ⟨f, rfl⟩ : ∃ f, fuel = f + 1 := ⟨fuel - 1, by omega⟩
    have hkn : k < n := by omega
    have hne : undress pa + k * raw_step pa ≠ undress pa + n * raw_step pa := by
      have : k * raw_step pa < n * raw_step pa := Nat.mul_lt_mul_of_pos_right hkn ha
      omega
    have hfar_a : ∀ i, k < i → undress pa + k * raw_step pa ≠ undress pa + i * raw_step pa := by
      intro i hi
      have : k * raw_step pa < i * raw_step pa := Nat.mul_lt_mul_of_pos_right hi ha
      omega
    have hfar_b : ∀ i, k < i → i < n →
        undress pb + k * raw_step pb ≠ undress pb + i * raw_step pb :=
      fun i hi hin => hdistinct k i hkn hin (by omega)
    obtain ⟨mem', hrun, hswapped, hrest⟩ :=
      ih (k + 1) f
        (swap mem (undress pa + k * raw_step pa) (undress pb + k * raw_step pb))
        (by omega) (by omega)
    refine ⟨mem', ?_, ?_, ?_⟩
    · unfold __device_sequence.swap_loop
      simp [device_iterator.ne, undress_increment, hlast, hne, device_iterator.next,
        device_iterator.address, increment_increment, hrun]
    · intro i hki hin
      by_cases hik : i = k
      · subst hik
        have h1 : mem' (undress pa + i * raw_step pa)
            = swap mem (undress pa + i * raw_step pa) (undress pb + i * raw_step pb)
                (undress pa + i * raw_step pa) :=
          hrest _ (fun j hj hjn => ⟨hfar_a j (by omega), hdisj i j hin hjn⟩)
        have h2 : mem' (undress pb + i * raw_step pb)
            = swap mem (undress pa + i * raw_step pa) (undress pb + i * raw_step pb)
                (undress pb + i * raw_step pb) :=
          hrest _ (fun j hj hjn =>
            ⟨fun h => hdisj j i hjn hin h.symm, hfar_b j (by omega) hjn⟩)
        rw [h1, h2, swap_left, swap_right]
        exact ⟨rfl, rfl⟩
      · obtain ⟨h1, h2⟩ := hswapped i (by omega) hin
        rw [h1, h2]
        constructor
        · exact swap_other mem _ _ _ (fun h => hdisj k i hkn hin h.symm)
            (fun h => hfar_b i (by omega) hin h.symm)
        · exact swap_other mem _ _ _ (fun h => hfar_a i (by omega) h.symm)
            (fun h => hdisj i k hin hkn h)
    · intro x hx
      rw [hrest x (fun i hi hin => hx i (by omega) hin)]
      exact swap_other mem _ _ _ (hx k (Nat.le_refl k) hkn).1 (hx k (Nat.le_refl k) hkn).2

/-- C19, as amended: applying `a.swap(b)` twice restores the original state.
Under the field-exchange strategy `ptr` and `length` of both views return to
their initial values. Under the element-wise strategy, for `b` at least as long
as `a`, over non-overlapping storage (no element of `a` shares its address with
an element of `b`), and with the elements of `b` that the loop exchanges, its
first `a.size()` positions, at pairwise distinct raw addresses, both loops return
and every element of the storage has its initial value again; the element-wise
strategy changes the storage only, never `ptr` or `length` of a view. -/
theorem swap_twice {α : Type} (mem : Memory α) (a b : __device_sequence) (fuel : Nat)
    (hfuel : a.length ≤ fuel) :
    __device_sequence.swap_host (__device_sequence.swap_host a b).1
        (__device_sequence.swap_host a b).2 = (a, b) ∧
    (a.length ≤ b.length →
      (∀ i j, i < a.length → j < a.length → i ≠ j →
        undress (increment b.ptr i) ≠ undress (increment b.ptr j)) →
      (∀ i j, i < a.length → j < b.length →
        undress (increment a.ptr i) ≠ undress (increment b.ptr j)) →
      ∃ mem', __device_sequence.swap_device fuel mem a b = some mem' ∧
        __device_sequence.swap_device fuel mem' a b = some mem) := by
  refine ⟨rfl, ?_⟩
  intro hlen hB hAB
  by_cases ha : raw_step a.ptr = 0
  · have hrun : ∀ m : Memory α, __device_sequence.swap_device fuel m a b = some m := by
      intro m
      unfold __device_sequence.swap_device __device_sequence.swap_loop
      simp [device_iterator.ne, __device_sequence.begin, __device_sequence.end_,
        cast_to_modifiable, undress_increment, ha]
    exact ⟨mem, hrun mem, hrun mem⟩
  · have hpa : 0 < raw_step a.ptr := Nat.pos_of_ne_zero ha
    have hspec : ∀ m : Memory α,
        ∃ mem', __device_sequence.swap_device fuel m a b = some mem' ∧
          (∀ i, i < a.length →
            mem' (undress a.ptr + i * raw_step a.ptr) = m (undress b.ptr + i * raw_step b.ptr) ∧
            mem' (undress b.ptr + i * raw_step b.ptr)
              = m (undress a.ptr + i * raw_step a.ptr)) ∧
          (∀ x, (∀ i, i < a.length →
            x ≠ undress a.ptr + i * raw_step a.ptr ∧ x ≠ undress b.ptr + i * raw_step b.ptr) →
            mem' x = m x) := by
      intro m
      obtain ⟨mem', hrun, hswapped, hrest⟩ :=
        swap_loop_exchange a.ptr b.ptr hpa a.length (__device_sequence.end_ a)
          (by simp [__device_sequence.end_, __device_sequence.size, undress_increment])
          (fun i j hi hj hij => by
            have h := hB i j hi hj hij
            simpa [undress_increment] using h)
          (fun i j hi hj => by
            have h := hAB i j hi (by omega)
            simpa [undress_increment] using h)
          a.length 0 fuel m (by omega) hfuel
      rw [increment_zero, increment_zero] at hrun
      exact ⟨mem', hrun, fun i hi => hswapped i (Nat.zero_le i) hi,
        fun x hx => hrest x (fun i _ hi => hx i hi)⟩
    obtain ⟨mem1, hrun1, hswapped1, hrest1⟩ := hspec mem
    obtain ⟨mem2, hrun2, hswapped2, hrest2⟩ := hspec mem1
    refine ⟨mem1, hrun1, ?_⟩
    rw [hrun2]
    congr 1
    funext x
    by_cases hx : ∃ i, i < a.length ∧
        (x = undress a.ptr + i * raw_step a.ptr ∨ x = undress b.ptr + i * raw_step b.ptr)
    · obtain ⟨i, hi, hxa | hxb⟩ := hx
      · rw [hxa, (hswapped2 i hi).1, (hswapped1 i hi).2]
      · rw [hxb, (hswapped2 i hi).2, (hswapped1 i hi).1]
    · have hfree : ∀ i, i < a.length →
          x ≠ undress a.ptr + i * raw_step a.ptr ∧ x ≠ undress b.ptr + i * raw_step b.ptr :=
        fun i hi => ⟨fun h => hx ⟨i, hi, Or.inl h⟩, fun h => hx ⟨i, hi, Or.inr h⟩⟩
      rw [hrest2 x hfree, hrest1 x hfree]

/-- Witness of C19: two views of two elements each, at the raw addresses 0, 1 and
10, 11, over storage that holds its own address as value. -/
theorem swap_twice_witness :
    (2 ≤ 2 ∧ 2 ≤ 2 ∧
      (∀ i j, i < 2 → j < 2 → i ≠ j →
        undress (increment (Pointer.plain 10) i) ≠ undress (increment (Pointer.plain 10) j)) ∧
      (∀ i j, i < 2 → j < 2 →
        undress (increment (Pointer.plain 0) i) ≠ undress (increment (Pointer.plain 10) j))) ∧
    __device_sequence.swap_host
        (__device_sequence.swap_host (__device_sequence.new (Pointer.plain 0) 2)
          (__device_sequence.new (Pointer.plain 10) 2)).1
        (__device_sequence.swap_host (__device_sequence.new (Pointer.plain 0) 2)
          (__device_sequence.new (Pointer.plain 10) 2)).2
      = (__device_sequence.new (Pointer.plain 0) 2, __device_sequence.new (Pointer.plain 10) 2) ∧
    (∃ mem',
      __device_sequence.swap_device 2 (fun x : Nat => x)
          (__device_sequence.new (Pointer.plain 0) 2)
          (__device_sequence.new (Pointer.plain 10) 2) = some mem' ∧
        __device_sequence.swap_device 2 mem' (__device_sequence.new (Pointer.plain 0) 2)
          (__device_sequence.new (Pointer.plain 10) 2) = some (fun x : Nat => x)) :=
  have hB : ∀ i j, i < 2 → j < 2 → i ≠ j →
      undress (increment (Pointer.plain 10) i) ≠ undress (increment (Pointer.plain 10) j) := by
    intro i j hi hj hij
    simp only [increment, undress]
    omega
  have hAB : ∀ i j, i < 2 → j < 2 →
      undress (increment (Pointer.plain 0) i) ≠ undress (increment (Pointer.plain 10) j) := by
    intro i j hi hj
    simp only [increment, undress]
    omega
  ⟨⟨Nat.le_refl 2, Nat.le_refl 2, hB, hAB⟩,
    (swap_twice (fun x : Nat => x) (__device_sequence.new (Pointer.plain 0) 2)
      (__device_sequence.new (Pointer.plain 10) 2) 2 (Nat.le_refl 2)).1,
    (swap_twice (fun x : Nat => x) (__device_sequence.new (Pointer.plain 0) 2)
      (__device_sequence.new (Pointer.plain 10) 2) 2 (Nat.le_refl 2)).2
      (Nat.le_refl 2) hB hAB⟩

/-- C19 fails as stated: `a` of length 2 over the striding address with base 0 and
stride 1, `b` of length 2 over the striding address with base 10 and stride 0,
storage holding its own address as value. No element of `a` shares its address
with an element of `b`, and `b` is as long as `a`; but both positions of `b`
denote raw address 10, and after two element-wise swaps the raw addresses 0, 1,
10, 11 hold `[1, 10, 0, 11]`, not the initial `[0, 1, 10, 11]`. -/
theorem swap_twice_fails_aliased_elements :
    ((__device_sequence.new (Pointer.striding (Pointer.plain 0) 1) 2).length
        ≤ (__device_sequence.new (Pointer.striding (Pointer.plain 10) 0) 2).length ∧
      ∀ i j, i < 2 → j < 2 →
        undress (increment (Pointer.striding (Pointer.plain 0) 1) i)
          ≠ undress (increment (Pointer.striding (Pointer.plain 10) 0) j)) ∧
    ((__device_sequence.swap_device 2 (fun x : Nat => x)
          (__device_sequence.new (Pointer.striding (Pointer.plain 0) 1) 2)
          (__device_sequence.new (Pointer.striding (Pointer.plain 10) 0) 2)).bind
        (fun mem' => __device_sequence.swap_device 2 mem'
          (__device_sequence.new (Pointer.striding (Pointer.plain 0) 1) 2)
          (__device_sequence.new (Pointer.striding (Pointer.plain 10) 0) 2))).map
      (fun mem'' => [mem'' 0, mem'' 1, mem'' 10, mem'' 11]) = some [1, 10, 0, 11] := by
  refine ⟨⟨by decide, ?_⟩, by decide⟩
  intro i j hi hj
  simp only [increment, undress]
  omega

end ecuda
